import Mathlib

/-!
Verification development for the superblock planner core
(`backend/app/services`): constraint enforcement
(`constraint/constraint_enforcer.py`), city partitioning
(`partitioning/city_partitioner.py`), superblock-aware routing
(`routing/superblock_router.py`) and the centrality sampling rule
(`detection/superblock_analyzer.py`).

The street network is a directed multigraph (networkx `MultiDiGraph`),
embedded here as a list of nodes with coordinate data and a list of
keyed edges with the attributes the algorithms read (`highway`,
`length`, `vehicle_blocked`, `osmid`, `superblock_id`).  Floats are
embedded as rationals.  External library calls (networkx `minimum_cut`,
`math.atan2`-based sector geometry, pyproj projection) are abstracted
as function parameters; everything else is translated directly from the
Python source.
-/

/-- Node attributes: `x`/`y` coordinates (lon/lat).  `hasXY` mirrors the
presence of the `"x"`/`"y"` keys in the networkx attribute dict (the code
defensively skips nodes without them). -/
structure NodeData where
  x : ℚ
  y : ℚ
  hasXY : Bool
deriving DecidableEq, Repr

/-- Edge attributes read by the algorithms.  `highway` is the OSM highway
class (the Python code reduces a list-valued class to its first element
before any use embedded here, so a single string suffices), `length` the
edge length in meters, `vehicleBlocked` the `vehicle_blocked` marker set
by modal filters, `osmid` the (first) OSM way id, `superblockId` the
`superblock_id` attribute set by the router's modification pass. -/
structure EdgeData where
  highway : String
  length : ℚ
  vehicleBlocked : Bool
  osmid : Int
  superblockId : Option String
deriving DecidableEq, Repr

/-- One directed multigraph edge: endpoints `u`, `v`, parallel-edge `key`,
and its attribute record. -/
structure Edge where
  u : Nat
  v : Nat
  key : Nat
  d : EdgeData
deriving DecidableEq, Repr

/-- Directed multigraph, embedding networkx `MultiDiGraph`: node list with
attributes plus keyed edge list.  List order embeds networkx insertion
order. -/
structure Graph where
  nodes : List (Nat × NodeData)
  edges : List Edge
deriving DecidableEq, Repr

/-- The node identifiers of a graph. -/
def Graph.nodeIds (g : Graph) : List Nat :=
  g.nodes.map Prod.fst

/-- Well-formedness: every edge endpoint is a node of the graph and node
ids are not duplicated.  Both hold for every graph networkx constructs
(`add_edge` inserts missing endpoints; node ids are dict keys). -/
def Graph.WF (g : Graph) : Prop :=
  (∀ e ∈ g.edges, e.u ∈ g.nodeIds ∧ e.v ∈ g.nodeIds) ∧ g.nodeIds.Nodup

instance (g : Graph) : Decidable g.WF := by
  unfold Graph.WF
  infer_instance

theorem contains_iff_mem {l : List Nat} {x : Nat} :
    l.contains x = true ↔ x ∈ l := List.elem_iff

theorem contains_eq_false_iff {l : List Nat} {x : Nat} :
    l.contains x = false ↔ x ∉ l := by
  rw [← Bool.not_eq_true, not_congr contains_iff_mem]

/-! ### Undirected connectivity

`nx.has_path` on `graph.to_undirected()` is embedded as a bounded
breadth-first closure: `undirStep` adds every node adjacent (in either
edge direction) to the current front, and `reachListU` iterates it
`|nodes| + 1` times, which is enough to reach a fixpoint.  `ConnU` is the
propositional counterpart (reflexive-transitive closure of undirected
adjacency); the two are proved equivalent for well-formed graphs. -/

/-- Undirected adjacency: some edge joins `a` and `b` in either direction. -/
def adjU (es : List Edge) (a b : Nat) : Bool :=
  es.any fun e => (e.u = a && e.v = b) || (e.u = b && e.v = a)

/-- One closure step: append every graph node not yet in `s` that is
adjacent to a member of `s`. -/
def undirStep (g : Graph) (s : List Nat) : List Nat :=
  s ++ g.nodeIds.filter fun n => !s.contains n && s.any fun m => adjU g.edges m n

/-- Iterate the closure step. -/
def undirIter (g : Graph) : Nat → List Nat → List Nat
  | 0, s => s
  | k + 1, s => undirIter g k (undirStep g s)

/-- All nodes connected to `a` by an undirected path. -/
def reachListU (g : Graph) (a : Nat) : List Nat :=
  undirIter g (g.nodes.length + 1) [a]

/-- Embedding of `nx.has_path(G_undirected, a, b)`: the call sites embedded
here only reach it with both endpoints present in the graph (the
`NetworkXError` branch skips absent nodes), so the exception path needs no
separate model. -/
def hasPathU (g : Graph) (a b : Nat) : Bool :=
  (reachListU g a).contains b

/-- Propositional undirected connectivity: reflexive-transitive closure of
`adjU`. -/
inductive ConnU (g : Graph) (a : Nat) : Nat → Prop
  | refl : ConnU g a a
  | tail {b c : Nat} : ConnU g a b → adjU g.edges b c = true → ConnU g a c

theorem adjU_symm {es : List Edge} {a b : Nat} (h : adjU es a b = true) :
    adjU es b a = true := by
  simp only [adjU, List.any_eq_true] at h ⊢
  obtain ⟨e, he, hcond⟩ := h
  exact ⟨e, he, by revert hcond; simp; tauto⟩

theorem ConnU.single {g : Graph} {a b : Nat} (h : adjU g.edges a b = true) :
    ConnU g a b :=
  ConnU.tail ConnU.refl h

theorem ConnU.trans {g : Graph} {a b c : Nat}
    (h₁ : ConnU g a b) (h₂ : ConnU g b c) : ConnU g a c := by
  induction h₂ with
  | refl => exact h₁
  | tail _ hadj ih => exact ConnU.tail ih hadj

theorem ConnU.symm {g : Graph} {a b : Nat} (h : ConnU g a b) : ConnU g b a := by
  induction h with
  | refl => exact ConnU.refl
  | tail _ hadj ih => exact ConnU.trans (ConnU.single (adjU_symm hadj)) ih

theorem mem_undirStep_self {g : Graph} {s : List Nat} {x : Nat} (hx : x ∈ s) :
    x ∈ undirStep g s :=
  List.mem_append_left _ hx

theorem undirStep_sound {g : Graph} {a : Nat} {s : List Nat}
    (hs : ∀ x ∈ s, ConnU g a x) : ∀ x ∈ undirStep g s, ConnU g a x := by
  intro x hx
  rcases List.mem_append.1 hx with h | h
  · exact hs x h
  · obtain ⟨hxg, hcond⟩ := List.mem_filter.1 h
    simp only [Bool.and_eq_true, List.any_eq_true] at hcond
    obtain ⟨-, m, hm, hadj⟩ := hcond
    exact ConnU.tail (hs m hm) hadj

theorem undirIter_sound {g : Graph} {a : Nat} :
    ∀ (k : Nat) (s : List Nat), (∀ x ∈ s, ConnU g a x) →
      ∀ x ∈ undirIter g k s, ConnU g a x := by
  intro k
  induction k with
  | zero => intro s hs; exact hs
  | succ k ih => intro s hs; exact ih _ (undirStep_sound hs)

theorem mem_undirIter_self {g : Graph} :
    ∀ (k : Nat) (s : List Nat) (x : Nat), x ∈ s → x ∈ undirIter g k s := by
  intro k
  induction k with
  | zero => intro s x hx; exact hx
  | succ k ih => intro s x hx; exact ih _ _ (mem_undirStep_self hx)

theorem undirStep_nodup {g : Graph} (hg : g.nodeIds.Nodup) {s : List Nat}
    (hs : s.Nodup) : (undirStep g s).Nodup := by
  refine List.Nodup.append hs (hg.filter _) ?_
  intro x hx hx'
  obtain ⟨-, hcond⟩ := List.mem_filter.1 hx'
  simp only [Bool.and_eq_true, Bool.not_eq_true'] at hcond
  exact (contains_eq_false_iff.1 hcond.1) hx

theorem undirStep_subset_carrier {g : Graph} {s : List Nat} {a : Nat}
    (hs : ∀ x ∈ s, x ∈ a :: g.nodeIds) :
    ∀ x ∈ undirStep g s, x ∈ a :: g.nodeIds := by
  intro x hx
  rcases List.mem_append.1 hx with h | h
  · exact hs x h
  · exact List.mem_cons_of_mem _ (List.mem_filter.1 h).1

/-- When `undirStep` adds nothing, the set is closed under adjacency into
graph nodes. -/
theorem closed_of_step_fix {g : Graph} {s : List Nat}
    (hfix : undirStep g s = s) :
    ∀ b ∈ s, ∀ c ∈ g.nodeIds, adjU g.edges b c = true → c ∈ s := by
  intro b hb c hc hadj
  by_contra hcs
  have hmem : c ∈ g.nodeIds.filter
      fun n => !s.contains n && s.any fun m => adjU g.edges m n := by
    refine List.mem_filter.2 ⟨hc, ?_⟩
    simp only [Bool.and_eq_true, Bool.not_eq_true', List.any_eq_true]
    exact ⟨contains_eq_false_iff.2 hcs, b, hb, hadj⟩
  have : c ∈ undirStep g s := List.mem_append_right _ hmem
  rw [hfix] at this
  exact hcs this

theorem undirStep_fix_iter {g : Graph} {s : List Nat}
    (hfix : undirStep g s = s) : ∀ k, undirIter g k s = s := by
  intro k
  induction k with
  | zero => rfl
  | succ k ih => simpa [undirIter, hfix] using ih

theorem undirIter_len_or_fix (g : Graph) :
    ∀ (k : Nat) (s : List Nat),
      undirStep g (undirIter g k s) = undirIter g k s ∨
      s.length + k ≤ (undirIter g k s).length := by
  intro k
  induction k with
  | zero => intro s; exact Or.inr (Nat.le_refl _)
  | succ k ih =>
    intro s
    by_cases hfix : undirStep g s = s
    · left
      have h1 : undirIter g (k + 1) s = s := undirStep_fix_iter hfix (k + 1)
      rw [h1, hfix]
    · have hlen : s.length + 1 ≤ (undirStep g s).length := by
        have hform : undirStep g s = s ++ g.nodeIds.filter
            fun n => !s.contains n && s.any fun m => adjU g.edges m n := rfl
        have hne : (g.nodeIds.filter
            fun n => !s.contains n && s.any fun m => adjU g.edges m n) ≠ [] := by
          intro hnil
          exact hfix (by rw [hform, hnil, List.append_nil])
        have : 1 ≤ (g.nodeIds.filter
            fun n => !s.contains n && s.any fun m => adjU g.edges m n).length :=
          Nat.one_le_iff_ne_zero.2 (fun h => hne (List.eq_nil_of_length_eq_zero h))
        rw [hform, List.length_append]
        omega
      rcases ih (undirStep g s) with h | h
      · left
        show undirStep g (undirIter g k (undirStep g s)) = _
        exact h
      · right
        show s.length + (k + 1) ≤ (undirIter g k (undirStep g s)).length
        omega

theorem undirIter_nodup {g : Graph} (hg : g.nodeIds.Nodup) :
    ∀ (k : Nat) (s : List Nat), s.Nodup → (undirIter g k s).Nodup := by
  intro k
  induction k with
  | zero => intro s hs; exact hs
  | succ k ih => intro s hs; exact ih _ (undirStep_nodup hg hs)

theorem undirIter_subset_carrier {g : Graph} {a : Nat} :
    ∀ (k : Nat) (s : List Nat), (∀ x ∈ s, x ∈ a :: g.nodeIds) →
      ∀ x ∈ undirIter g k s, x ∈ a :: g.nodeIds := by
  intro k
  induction k with
  | zero => intro s hs; exact hs
  | succ k ih => intro s hs; exact ih _ (undirStep_subset_carrier hs)

/-- The iterated closure starting from `[a]` is closed under undirected
adjacency into graph nodes. -/
theorem reachListU_closed {g : Graph} (hg : g.nodeIds.Nodup) (a : Nat) :
    ∀ b ∈ reachListU g a, ∀ c ∈ g.nodeIds, adjU g.edges b c = true →
      c ∈ reachListU g a := by
  have hcarrier : ∀ x ∈ reachListU g a, x ∈ a :: g.nodeIds :=
    undirIter_subset_carrier _ _ (by intro x hx; simp at hx; simp [hx])
  have hnodup : (reachListU g a).Nodup :=
    undirIter_nodup hg _ _ (List.nodup_singleton a)
  rcases undirIter_len_or_fix g (g.nodes.length + 1) [a] with hfix | hlen
  · exact fun b hb c hc hadj => closed_of_step_fix hfix b hb c hc hadj
  · -- impossible: a nodup list inside `a :: nodeIds` cannot exceed its card
    exfalso
    have hsub : (reachListU g a).toFinset ⊆ (a :: g.nodeIds).toFinset := by
      intro x hx
      exact List.mem_toFinset.2 (hcarrier x (List.mem_toFinset.1 hx))
    have hcard1 : (reachListU g a).toFinset.card = (reachListU g a).length :=
      List.toFinset_card_of_nodup hnodup
    have hcard2 : (a :: g.nodeIds).toFinset.card ≤ g.nodes.length + 1 := by
      calc (a :: g.nodeIds).toFinset.card ≤ (a :: g.nodeIds).length :=
            List.toFinset_card_le _
        _ = g.nodes.length + 1 := by simp [Graph.nodeIds]
    have hle := Finset.card_le_card hsub
    have hone : ([a] : List Nat).length = 1 := rfl
    simp only [reachListU] at hlen hcard1 hle
    omega

/-- Soundness: members of the reach list are connected to `a`. -/
theorem reachListU_sound {g : Graph} {a x : Nat} (hx : x ∈ reachListU g a) :
    ConnU g a x := by
  refine undirIter_sound _ _ ?_ x hx
  intro y hy
  simp only [List.mem_singleton] at hy
  subst hy
  exact ConnU.refl

/-- Completeness (for well-formed graphs): everything connected to `a` is
in the reach list. -/
theorem reachListU_complete {g : Graph} (hwf : g.WF) {a b : Nat}
    (h : ConnU g a b) : b ∈ reachListU g a := by
  induction h with
  | refl => exact mem_undirIter_self _ _ _ (List.mem_singleton_self a)
  | tail hab hadj ih =>
    rename_i x y
    have hy : y ∈ g.nodeIds := by
      simp only [adjU, List.any_eq_true, Bool.or_eq_true, Bool.and_eq_true,
        decide_eq_true_eq] at hadj
      obtain ⟨e, he, hcond⟩ := hadj
      rcases hcond with ⟨-, h2⟩ | ⟨h1, -⟩
      · exact h2 ▸ (hwf.1 e he).2
      · exact h1 ▸ (hwf.1 e he).1
    exact reachListU_closed hwf.2 a x ih y hy hadj

/-- `hasPathU` decides `ConnU` on well-formed graphs. -/
theorem hasPathU_iff_connU {g : Graph} (hwf : g.WF) (a b : Nat) :
    hasPathU g a b = true ↔ ConnU g a b := by
  constructor
  · intro h
    exact reachListU_sound (contains_iff_mem.1 h)
  · intro h
    exact contains_iff_mem.2 (reachListU_complete hwf h)

/-! ### Street modifications

Embedding of `StreetModification` (`models/schemas.py`) restricted to the
fields the graph algorithms read: endpoints, key, kind and one-way
direction.  The display-only fields (`osm_id`, `name`, `filter_location`,
`rationale`) are carried by the Python object but never influence graph
semantics, so they are omitted. -/

/-- `ModificationType` enumeration. -/
inductive ModificationType
  | modalFilter
  | oneWay
  | turnRestriction
  | fullClosure
deriving DecidableEq, Repr

/-- One-way preserved direction (`"u_to_v"` / `"v_to_u"`). -/
inductive OneWayDir
  | uToV
  | vToU
deriving DecidableEq, Repr

/-- A street modification. -/
structure StreetModification where
  u : Nat
  v : Nat
  key : Nat
  modType : ModificationType
  direction : Option OneWayDir
deriving DecidableEq, Repr

/-- Remove every parallel edge from `a` to `b`, embedding the Python idiom
`for k in list(G[a][b].keys()): G.remove_edge(a, b, k)` guarded by
`has_edge` (removing nothing when no such edge exists). -/
def removeDir (g : Graph) (a b : Nat) : Graph :=
  { g with edges := g.edges.filter fun e => !(e.u = a && e.v = b) }

/-- Modification application used by
`ConstraintEnforcer._validate_modifications`: a modal filter removes every
edge between `u` and `v` in both directions; a one-way keeping `u_to_v`
removes every `v→u` edge, otherwise every `u→v` edge; other kinds fall
through the `if`/`elif` chain untouched. -/
def applyValidateMod (g : Graph) (m : StreetModification) : Graph :=
  match m.modType with
  | .modalFilter => removeDir (removeDir g m.u m.v) m.v m.u
  | .oneWay =>
      if m.direction = some .uToV then removeDir g m.v m.u
      else removeDir g m.u m.v
  | _ => g

/-- Apply a modification list in order (`for mod in modifications`). -/
def applyValidateMods (g : Graph) (mods : List StreetModification) : Graph :=
  mods.foldl applyValidateMod g

theorem removeDir_nodes (g : Graph) (a b : Nat) :
    (removeDir g a b).nodes = g.nodes := rfl

theorem removeDir_edges_subset {g : Graph} {a b : Nat} :
    ∀ e ∈ (removeDir g a b).edges, e ∈ g.edges := by
  intro e he
  exact (List.mem_filter.1 he).1

theorem applyValidateMod_nodes (g : Graph) (m : StreetModification) :
    (applyValidateMod g m).nodes = g.nodes := by
  unfold applyValidateMod
  cases m.modType <;> simp [removeDir_nodes]
  split <;> rfl

theorem applyValidateMod_edges_subset {g : Graph} {m : StreetModification} :
    ∀ e ∈ (applyValidateMod g m).edges, e ∈ g.edges := by
  intro e he
  unfold applyValidateMod at he
  rcases hm : m.modType <;> rw [hm] at he
  case modalFilter =>
    exact removeDir_edges_subset _ (removeDir_edges_subset _ he)
  case oneWay =>
    rcases hd : decide (m.direction = some .uToV) <;> simp only [hd] at he
    · simp only [decide_eq_false_iff_not] at hd
      rw [if_neg hd] at he
      exact removeDir_edges_subset _ he
    · simp only [decide_eq_true_eq] at hd
      rw [if_pos hd] at he
      exact removeDir_edges_subset _ he
  case turnRestriction => exact he
  case fullClosure => exact he

theorem applyValidateMods_nodes (g : Graph) (mods : List StreetModification) :
    (applyValidateMods g mods).nodes = g.nodes := by
  induction mods generalizing g with
  | nil => rfl
  | cons m t ih =>
    show (applyValidateMods (applyValidateMod g m) t).nodes = g.nodes
    rw [ih, applyValidateMod_nodes]

theorem applyValidateMods_edges_subset {g : Graph}
    {mods : List StreetModification} :
    ∀ e ∈ (applyValidateMods g mods).edges, e ∈ g.edges := by
  induction mods generalizing g with
  | nil => intro e he; exact he
  | cons m t ih =>
    intro e he
    exact applyValidateMod_edges_subset e (ih e he)

theorem applyValidateMods_WF {g : Graph} (hwf : g.WF)
    (mods : List StreetModification) : (applyValidateMods g mods).WF := by
  constructor
  · intro e he
    have hn : (applyValidateMods g mods).nodeIds = g.nodeIds := by
      unfold Graph.nodeIds
      rw [applyValidateMods_nodes]
    rw [hn]
    exact hwf.1 e (applyValidateMods_edges_subset e he)
  · have hn : (applyValidateMods g mods).nodeIds = g.nodeIds := by
      unfold Graph.nodeIds
      rw [applyValidateMods_nodes]
    rw [hn]
    exact hwf.2

/-! ### Modification application with `vehicle_blocked` marking

`SuperblockRouter._build_modified_graph` applies every superblock's
modification list to a copy of the full graph: modal filters mark both
directions `vehicle_blocked` and stamp the superblock id, one-way
conversions remove the blocked direction, full closures remove both
directions.  `ConstraintEnforcer.get_modified_graph` does the same for a
single modification list, but only marks `vehicle_blocked` (no superblock
id) and has no full-closure branch. -/

/-- Mark every parallel `a→b` edge with `vehicle_blocked = True` and
`superblock_id = sbId` (router variant). -/
def markBlockedSb (sbId : String) (g : Graph) (a b : Nat) : Graph :=
  { g with edges := g.edges.map fun e =>
      if e.u = a && e.v = b then
        { e with d := { e.d with vehicleBlocked := true,
                                 superblockId := some sbId } }
      else e }

/-- One step of `SuperblockRouter._build_modified_graph`. -/
def applyRouterMod (sbId : String) (g : Graph) (m : StreetModification) :
    Graph :=
  match m.modType with
  | .modalFilter => markBlockedSb sbId (markBlockedSb sbId g m.u m.v) m.v m.u
  | .oneWay =>
      if m.direction = some .uToV then removeDir g m.v m.u
      else removeDir g m.u m.v
  | .fullClosure => removeDir (removeDir g m.u m.v) m.v m.u
  | .turnRestriction => g

/-- `SuperblockRouter._build_modified_graph`: apply every superblock's
modifications in order. -/
def buildModifiedGraph (g : Graph)
    (sbs : List (String × List StreetModification)) : Graph :=
  sbs.foldl (fun acc sb => sb.2.foldl (applyRouterMod sb.1) acc) g

/-- Mark every parallel `a→b` edge `vehicle_blocked = True` (enforcer
variant, no superblock id). -/
def markBlockedEnf (g : Graph) (a b : Nat) : Graph :=
  { g with edges := g.edges.map fun e =>
      if e.u = a && e.v = b then
        { e with d := { e.d with vehicleBlocked := true } }
      else e }

/-- One step of `ConstraintEnforcer.get_modified_graph` (its `if`/`elif`
chain has no branch for other modification kinds). -/
def applyEnforcerMod (g : Graph) (m : StreetModification) : Graph :=
  match m.modType with
  | .modalFilter => markBlockedEnf (markBlockedEnf g m.u m.v) m.v m.u
  | .oneWay =>
      if m.direction = some .uToV then removeDir g m.v m.u
      else removeDir g m.u m.v
  | _ => g

/-- `ConstraintEnforcer.get_modified_graph`. -/
def getModifiedGraph (g : Graph) (mods : List StreetModification) : Graph :=
  mods.foldl applyEnforcerMod g

/-! Per-edge normal form used to prove idempotence of the two application
functions.  Each modification either deletes an edge (decided only by its
endpoints), marks it, or leaves it alone. -/

/-- Does `m` delete direction `u→v` under the router semantics? -/
def rModRemoves (m : StreetModification) (u v : Nat) : Bool :=
  match m.modType with
  | .oneWay =>
      if m.direction = some .uToV then u = m.v && v = m.u
      else u = m.u && v = m.v
  | .fullClosure => (u = m.u && v = m.v) || (u = m.v && v = m.u)
  | _ => false

/-- Does `m` mark direction `u→v` as vehicle-blocked? -/
def rModMarks (m : StreetModification) (u v : Nat) : Bool :=
  match m.modType with
  | .modalFilter => (u = m.u && v = m.v) || (u = m.v && v = m.u)
  | _ => false

/-- Per-edge action of one router-side modification. -/
def rStep (sbId : String) (m : StreetModification) (e : Edge) : Option Edge :=
  if rModRemoves m e.u e.v then none
  else if rModMarks m e.u e.v then
    some { e with d := { e.d with vehicleBlocked := true,
                                  superblockId := some sbId } }
  else some e

/-- Per-edge action of a flat list of (superblock id, modification) pairs. -/
def rRun (L : List (String × StreetModification)) (e : Edge) : Option Edge :=
  L.foldl (fun acc p => acc.bind (rStep p.1 p.2)) (some e)

def applyPairs (g : Graph) (L : List (String × StreetModification)) : Graph :=
  L.foldl (fun acc p => applyRouterMod p.1 acc p.2) g

def flattenSbs (sbs : List (String × List StreetModification)) :
    List (String × StreetModification) :=
  sbs.flatMap fun sb => sb.2.map fun m => (sb.1, m)

theorem map_eq_filterMap_some {α β : Type} (f : α → β) (l : List α) :
    l.map f = l.filterMap fun x => some (f x) := by
  induction l with
  | nil => rfl
  | cons a t ih => simp [ih]

theorem filter_eq_filterMap_ite {α : Type} (p : α → Bool) (l : List α) :
    l.filter p = l.filterMap fun x => if p x then some x else none := by
  induction l with
  | nil => rfl
  | cons a t ih =>
    by_cases h : p a <;> simp [List.filter_cons, h, ih]

theorem applyRouterMod_char (i : String) (g : Graph)
    (m : StreetModification) :
    applyRouterMod i g m =
      { nodes := g.nodes, edges := g.edges.filterMap (rStep i m) } := by
  obtain ⟨mu, mv, mk, mt, md⟩ := m
  cases mt
  case modalFilter =>
    show markBlockedSb i (markBlockedSb i g mu mv) mv mu = _
    unfold markBlockedSb
    have key : ∀ l : List Edge,
        (l.map fun e => if e.u = mu && e.v = mv then
            { e with d := { e.d with vehicleBlocked := true,
                                     superblockId := some i } } else e).map
          (fun e => if e.u = mv && e.v = mu then
            { e with d := { e.d with vehicleBlocked := true,
                                     superblockId := some i } } else e) =
        l.filterMap (rStep i ⟨mu, mv, mk, .modalFilter, md⟩) := by
      intro l
      rw [map_eq_filterMap_some, map_eq_filterMap_some,
        List.filterMap_filterMap]
      refine List.filterMap_congr ?_
      intro e _
      simp only [Option.some_bind]
      by_cases h1 : e.u = mu ∧ e.v = mv
      · obtain ⟨h1a, h1b⟩ := h1
        by_cases h2 : e.u = mv ∧ e.v = mu
        · obtain ⟨h2a, h2b⟩ := h2
          have hmm : mu = mv := h1a ▸ h2a
          subst hmm
          simp [rStep, rModRemoves, rModMarks, h1a, h1b]
        · have hne : ¬ mu = mv := fun hmm => h2 ⟨h1a.trans hmm, h1b.trans hmm.symm⟩
          simp [rStep, rModRemoves, rModMarks, h1a, h1b, hne]
      · by_cases h2 : e.u = mv ∧ e.v = mu
        · obtain ⟨h2a, h2b⟩ := h2
          have hne : ¬ mv = mu := fun hmm => h1 ⟨h2a.trans hmm, h2b.trans hmm.symm⟩
          simp [rStep, rModRemoves, rModMarks, h2a, h2b, hne]
        · simp [rStep, rModRemoves, rModMarks, h1, h2]
    simp only [key]
  case oneWay =>
    show (if md = some OneWayDir.uToV then removeDir g mv mu
          else removeDir g mu mv) = _
    by_cases hd : md = some OneWayDir.uToV
    · rw [if_pos hd]
      unfold removeDir
      congr 1
      rw [filter_eq_filterMap_ite]
      refine List.filterMap_congr ?_
      intro e _
      simp only [rStep, rModRemoves, rModMarks, hd, if_true, Bool.not_eq_true,
        Bool.and_eq_true, decide_eq_true_eq, Bool.not_and, Bool.or_eq_true,
        Bool.not_eq_true', decide_eq_false_iff_not, reduceIte]
      split_ifs <;> tauto
    · rw [if_neg hd]
      unfold removeDir
      congr 1
      rw [filter_eq_filterMap_ite]
      refine List.filterMap_congr ?_
      intro e _
      simp only [rStep, rModRemoves, rModMarks, hd, Bool.not_eq_true,
        Bool.and_eq_true, decide_eq_true_eq, Bool.not_and, Bool.or_eq_true,
        Bool.not_eq_true', decide_eq_false_iff_not, reduceIte]
      split_ifs <;> tauto
  case fullClosure =>
    show removeDir (removeDir g mu mv) mv mu = _
    unfold removeDir
    congr 1
    rw [filter_eq_filterMap_ite, filter_eq_filterMap_ite,
      List.filterMap_filterMap]
    refine List.filterMap_congr ?_
    intro e _
    by_cases h1 : e.u = mu ∧ e.v = mv
    · obtain ⟨h1a, h1b⟩ := h1
      simp [rStep, rModRemoves, rModMarks, h1a, h1b]
    · by_cases h2 : e.u = mv ∧ e.v = mu
      · obtain ⟨h2a, h2b⟩ := h2
        simp [rStep, rModRemoves, rModMarks, h2a, h2b]
      · rcases not_and_or.mp h1 with h | h <;>
          rcases not_and_or.mp h2 with h' | h' <;>
            simp [rStep, rModRemoves, rModMarks, h, h', h1, h2]
  case turnRestriction =>
    show g = _
    have key : g.edges.filterMap (rStep i ⟨mu, mv, mk, .turnRestriction, md⟩) =
        g.edges := by
      have h1 : ∀ e, rStep i ⟨mu, mv, mk, .turnRestriction, md⟩ e = some e := by
        intro e
        simp [rStep, rModRemoves, rModMarks]
      calc g.edges.filterMap (rStep i ⟨mu, mv, mk, .turnRestriction, md⟩)
          = g.edges.filterMap some := List.filterMap_congr (fun e _ => h1 e)
        _ = g.edges := List.filterMap_some _
    rw [key]

theorem foldl_bind_none (st : String × StreetModification → Edge → Option Edge)
    (L : List (String × StreetModification)) :
    L.foldl (fun acc p => acc.bind (st p)) none = none := by
  induction L with
  | nil => rfl
  | cons p T ih => simpa using ih

theorem rRun_cons (p : String × StreetModification)
    (T : List (String × StreetModification)) (e : Edge) :
    rRun (p :: T) e = (rStep p.1 p.2 e).bind (rRun T) := by
  cases h : rStep p.1 p.2 e with
  | none =>
    show (p :: T).foldl (fun acc q => acc.bind (rStep q.1 q.2)) (some e) = none
    rw [List.foldl_cons]
    show T.foldl (fun acc q => acc.bind (rStep q.1 q.2)) ((some e).bind _) = none
    simp only [Option.some_bind, h]
    exact foldl_bind_none _ T
  | some e' =>
    show (p :: T).foldl (fun acc q => acc.bind (rStep q.1 q.2)) (some e) =
      rRun T e'
    rw [List.foldl_cons]
    show T.foldl (fun acc q => acc.bind (rStep q.1 q.2)) ((some e).bind _) = _
    simp only [Option.some_bind, h]
    rfl

theorem applyPairs_char (L : List (String × StreetModification)) :
    ∀ g : Graph,
      applyPairs g L = { nodes := g.nodes, edges := g.edges.filterMap (rRun L) } := by
  induction L with
  | nil =>
    intro g
    show g = { nodes := g.nodes, edges := g.edges.filterMap some }
    rw [List.filterMap_some]
  | cons p T ih =>
    intro g
    show applyPairs (applyRouterMod p.1 g p.2) T = _
    rw [ih, applyRouterMod_char]
    simp only
    congr 1
    rw [List.filterMap_filterMap]
    refine List.filterMap_congr ?_
    intro e _
    rw [rRun_cons]

theorem buildModifiedGraph_eq_applyPairs (g : Graph)
    (sbs : List (String × List StreetModification)) :
    buildModifiedGraph g sbs = applyPairs g (flattenSbs sbs) := by
  induction sbs generalizing g with
  | nil => rfl
  | cons sb t ih =>
    show buildModifiedGraph (sb.2.foldl (applyRouterMod sb.1) g) t = _
    rw [ih]
    have hflat : flattenSbs (sb :: t) =
        (sb.2.map fun m => (sb.1, m)) ++ flattenSbs t := by
      simp [flattenSbs]
    rw [hflat]
    unfold applyPairs
    rw [List.foldl_append, List.foldl_map]

def rRemovesAny (L : List (String × StreetModification)) (u v : Nat) : Bool :=
  L.any fun p => rModRemoves p.2 u v

def rMarksAny (L : List (String × StreetModification)) (u v : Nat) : Bool :=
  L.any fun p => rModMarks p.2 u v

def rLastMark (L : List (String × StreetModification)) (u v : Nat) :
    Option String :=
  L.foldl (fun acc p => if rModMarks p.2 u v then some p.1 else acc) none

/-- Closed form of the per-edge action of a modification list under the
router semantics: the edge is deleted when some modification deletes its
direction; otherwise its `vehicle_blocked` flag is or-ed with "some modal
filter matches" and its superblock id is overwritten by the last matching
filter. -/
def rResult (L : List (String × StreetModification)) (e : Edge) :
    Option Edge :=
  if rRemovesAny L e.u e.v then none
  else some { e with d := { e.d with
    vehicleBlocked := e.d.vehicleBlocked || rMarksAny L e.u e.v,
    superblockId := match rLastMark L e.u e.v with
      | some i => some i
      | none => e.d.superblockId } }

theorem rLastMark_acc (u v : Nat) :
    ∀ (T : List (String × StreetModification)) (acc : Option String),
      T.foldl (fun acc p => if rModMarks p.2 u v then some p.1 else acc) acc =
        match rLastMark T u v with
        | some i => some i
        | none => acc := by
  intro T
  induction T with
  | nil => intro acc; rfl
  | cons q T ih =>
    intro acc
    have hlhs : (q :: T).foldl
        (fun acc p => if rModMarks p.2 u v then some p.1 else acc) acc =
        T.foldl (fun acc p => if rModMarks p.2 u v then some p.1 else acc)
          (if rModMarks q.2 u v then some q.1 else acc) := rfl
    have hq : rLastMark (q :: T) u v =
        T.foldl (fun acc p => if rModMarks p.2 u v then some p.1 else acc)
          (if rModMarks q.2 u v then some q.1 else none) := rfl
    rw [hlhs, hq, ih, ih]
    by_cases hm : rModMarks q.2 u v = true
    · rw [if_pos hm, if_pos hm]
      cases rLastMark T u v <;> rfl
    · rw [if_neg hm, if_neg hm]
      cases rLastMark T u v <;> rfl

theorem rRun_eq_rResult :
    ∀ (L : List (String × StreetModification)) (e : Edge),
      rRun L e = rResult L e := by
  intro L
  induction L with
  | nil =>
    intro e
    show some e = rResult [] e
    simp [rResult, rRemovesAny, rMarksAny, rLastMark]
  | cons p T ih =>
    intro e
    rw [rRun_cons]
    unfold rStep
    by_cases hrem : rModRemoves p.2 e.u e.v = true
    · rw [if_pos hrem]
      show none = rResult (p :: T) e
      have : rRemovesAny (p :: T) e.u e.v = true := by
        simp [rRemovesAny]
        exact Or.inl hrem
      simp [rResult, this]
    · rw [if_neg hrem]
      by_cases hmark : rModMarks p.2 e.u e.v = true
      · rw [if_pos hmark]
        rw [Option.some_bind, ih]
        unfold rResult
        have hrem2 : rRemovesAny (p :: T) e.u e.v = rRemovesAny T e.u e.v := by
          simp [rRemovesAny, List.any_cons,
            Bool.eq_false_iff.2 (fun h => hrem h)]
        by_cases hT : rRemovesAny T e.u e.v = true
        · rw [if_pos hT, if_pos (hrem2.trans hT)]
        · rw [if_neg (by simp [hT]), if_neg (by simp [hrem2, hT])]
          have hmarks2 : rMarksAny (p :: T) e.u e.v = true := by
            simp [rMarksAny, List.any_cons, hmark]
          have hlast2 : rLastMark (p :: T) e.u e.v =
              match rLastMark T e.u e.v with
              | some i => some i
              | none => some p.1 := by
            show List.foldl _ (if rModMarks p.2 e.u e.v then some p.1 else none)
              T = _
            rw [if_pos hmark]
            exact rLastMark_acc e.u e.v T (some p.1)
          simp only [hmarks2, hlast2, Bool.or_true]
          cases rLastMark T e.u e.v <;> simp
      · rw [if_neg hmark]
        rw [Option.some_bind, ih]
        unfold rResult
        have hrem2 : rRemovesAny (p :: T) e.u e.v = rRemovesAny T e.u e.v := by
          simp [rRemovesAny, List.any_cons,
            Bool.eq_false_iff.2 (fun h => hrem h)]
        have hmarks2 : rMarksAny (p :: T) e.u e.v = rMarksAny T e.u e.v := by
          simp [rMarksAny, List.any_cons,
            Bool.eq_false_iff.2 (fun h => hmark h)]
        have hlast2 : rLastMark (p :: T) e.u e.v = rLastMark T e.u e.v := by
          show List.foldl _ (if rModMarks p.2 e.u e.v then some p.1 else none)
            T = _
          rw [if_neg hmark]
          rfl
        rw [hrem2, hmarks2, hlast2]

/-- Applying the per-edge action twice is the same as applying it once. -/
theorem rRun_idem_pt (L : List (String × StreetModification)) (e : Edge) :
    (rRun L e).bind (rRun L) = rRun L e := by
  rw [rRun_eq_rResult]
  unfold rResult
  by_cases hrem : rRemovesAny L e.u e.v = true
  · rw [if_pos hrem]
    rfl
  · rw [if_neg hrem]
    rw [Option.some_bind, rRun_eq_rResult]
    unfold rResult
    simp only
    rw [if_neg hrem]
    congr 1
    by_cases hmatch : rMarksAny L e.u e.v = true <;>
      cases hlast : rLastMark L e.u e.v <;>
        simp [hmatch, hlast]

theorem buildModifiedGraph_char (g : Graph)
    (sbs : List (String × List StreetModification)) :
    buildModifiedGraph g sbs =
      { nodes := g.nodes,
        edges := g.edges.filterMap (rRun (flattenSbs sbs)) } := by
  rw [buildModifiedGraph_eq_applyPairs, applyPairs_char]

theorem buildModifiedGraph_idem (g : Graph)
    (sbs : List (String × List StreetModification)) :
    buildModifiedGraph (buildModifiedGraph g sbs) sbs =
      buildModifiedGraph g sbs := by
  rw [buildModifiedGraph_char g sbs, buildModifiedGraph_char]
  show ({ nodes := g.nodes,
          edges := (g.edges.filterMap (rRun (flattenSbs sbs))).filterMap
            (rRun (flattenSbs sbs)) } : Graph) = _
  congr 1
  rw [List.filterMap_filterMap]
  exact List.filterMap_congr fun e _ => rRun_idem_pt _ e

/-! Per-edge normal form for `ConstraintEnforcer.get_modified_graph`
(marks carry no superblock id; only `modal_filter` and `one_way` act). -/

/-- Does `m` delete direction `u→v` under the enforcer semantics? -/
def eModRemoves (m : StreetModification) (u v : Nat) : Bool :=
  match m.modType with
  | .oneWay =>
      if m.direction = some .uToV then u = m.v && v = m.u
      else u = m.u && v = m.v
  | _ => false

/-- Per-edge action of one enforcer-side modification. -/
def eStep (m : StreetModification) (e : Edge) : Option Edge :=
  if eModRemoves m e.u e.v then none
  else if rModMarks m e.u e.v then
    some { e with d := { e.d with vehicleBlocked := true } }
  else some e

/-- Per-edge action of a modification list under enforcer semantics. -/
def eRun (L : List StreetModification) (e : Edge) : Option Edge :=
  L.foldl (fun acc m => acc.bind (eStep m)) (some e)

def eRemovesAny (L : List StreetModification) (u v : Nat) : Bool :=
  L.any fun m => eModRemoves m u v

def eMarksAny (L : List StreetModification) (u v : Nat) : Bool :=
  L.any fun m => rModMarks m u v

/-- Closed form of `eRun`. -/
def eResult (L : List StreetModification) (e : Edge) : Option Edge :=
  if eRemovesAny L e.u e.v then none
  else some { e with d := { e.d with
    vehicleBlocked := e.d.vehicleBlocked || eMarksAny L e.u e.v } }

theorem applyEnforcerMod_char (g : Graph) (m : StreetModification) :
    applyEnforcerMod g m =
      { nodes := g.nodes, edges := g.edges.filterMap (eStep m) } := by
  obtain ⟨mu, mv, mk, mt, md⟩ := m
  cases mt
  case modalFilter =>
    show markBlockedEnf (markBlockedEnf g mu mv) mv mu = _
    unfold markBlockedEnf
    have key : ∀ l : List Edge,
        (l.map fun e => if e.u = mu && e.v = mv then
            { e with d := { e.d with vehicleBlocked := true } } else e).map
          (fun e => if e.u = mv && e.v = mu then
            { e with d := { e.d with vehicleBlocked := true } } else e) =
        l.filterMap (eStep ⟨mu, mv, mk, .modalFilter, md⟩) := by
      intro l
      rw [map_eq_filterMap_some, map_eq_filterMap_some,
        List.filterMap_filterMap]
      refine List.filterMap_congr ?_
      intro e _
      simp only [Option.some_bind]
      by_cases h1 : e.u = mu ∧ e.v = mv
      · obtain ⟨h1a, h1b⟩ := h1
        by_cases h2 : e.u = mv ∧ e.v = mu
        · obtain ⟨h2a, h2b⟩ := h2
          have hmm : mu = mv := h1a ▸ h2a
          subst hmm
          simp [eStep, eModRemoves, rModMarks, h1a, h1b]
        · have hne : ¬ mu = mv := fun hmm => h2 ⟨h1a.trans hmm, h1b.trans hmm.symm⟩
          simp [eStep, eModRemoves, rModMarks, h1a, h1b, hne]
      · by_cases h2 : e.u = mv ∧ e.v = mu
        · obtain ⟨h2a, h2b⟩ := h2
          have hne : ¬ mv = mu := fun hmm => h1 ⟨h2a.trans hmm, h2b.trans hmm.symm⟩
          simp [eStep, eModRemoves, rModMarks, h2a, h2b, hne]
        · simp [eStep, eModRemoves, rModMarks, h1, h2]
    simp only [key]
  case oneWay =>
    show (if md = some OneWayDir.uToV then removeDir g mv mu
          else removeDir g mu mv) = _
    by_cases hd : md = some OneWayDir.uToV
    · rw [if_pos hd]
      unfold removeDir
      congr 1
      rw [filter_eq_filterMap_ite]
      refine List.filterMap_congr ?_
      intro e _
      simp only [eStep, eModRemoves, rModMarks, hd, Bool.not_eq_true,
        Bool.and_eq_true, decide_eq_true_eq, Bool.not_and, Bool.or_eq_true,
        Bool.not_eq_true', decide_eq_false_iff_not, reduceIte]
      split_ifs <;> tauto
    · rw [if_neg hd]
      unfold removeDir
      congr 1
      rw [filter_eq_filterMap_ite]
      refine List.filterMap_congr ?_
      intro e _
      simp only [eStep, eModRemoves, rModMarks, hd, Bool.not_eq_true,
        Bool.and_eq_true, decide_eq_true_eq, Bool.not_and, Bool.or_eq_true,
        Bool.not_eq_true', decide_eq_false_iff_not, reduceIte]
      split_ifs <;> tauto
  case turnRestriction =>
    show g = _
    have key : g.edges.filterMap (eStep ⟨mu, mv, mk, .turnRestriction, md⟩) =
        g.edges := by
      have h1 : ∀ e, eStep ⟨mu, mv, mk, .turnRestriction, md⟩ e = some e := by
        intro e
        simp [eStep, eModRemoves, rModMarks]
      calc g.edges.filterMap (eStep ⟨mu, mv, mk, .turnRestriction, md⟩)
          = g.edges.filterMap some := List.filterMap_congr (fun e _ => h1 e)
        _ = g.edges := List.filterMap_some _
    rw [key]
  case fullClosure =>
    show g = _
    have key : g.edges.filterMap (eStep ⟨mu, mv, mk, .fullClosure, md⟩) =
        g.edges := by
      have h1 : ∀ e, eStep ⟨mu, mv, mk, .fullClosure, md⟩ e = some e := by
        intro e
        simp [eStep, eModRemoves, rModMarks]
      calc g.edges.filterMap (eStep ⟨mu, mv, mk, .fullClosure, md⟩)
          = g.edges.filterMap some := List.filterMap_congr (fun e _ => h1 e)
        _ = g.edges := List.filterMap_some _
    rw [key]

theorem foldl_bind_none_mods (st : StreetModification → Edge → Option Edge)
    (L : List StreetModification) :
    L.foldl (fun acc m => acc.bind (st m)) none = none := by
  induction L with
  | nil => rfl
  | cons p T ih => simpa using ih

theorem eRun_cons (m : StreetModification) (T : List StreetModification)
    (e : Edge) : eRun (m :: T) e = (eStep m e).bind (eRun T) := by
  cases h : eStep m e with
  | none =>
    show (m :: T).foldl (fun acc q => acc.bind (eStep q)) (some e) = none
    rw [List.foldl_cons]
    show T.foldl (fun acc q => acc.bind (eStep q)) ((some e).bind _) = none
    simp only [Option.some_bind, h]
    exact foldl_bind_none_mods _ T
  | some e' =>
    show (m :: T).foldl (fun acc q => acc.bind (eStep q)) (some e) = eRun T e'
    rw [List.foldl_cons]
    show T.foldl (fun acc q => acc.bind (eStep q)) ((some e).bind _) = _
    simp only [Option.some_bind, h]
    rfl

theorem getModifiedGraph_char (mods : List StreetModification) :
    ∀ g : Graph, getModifiedGraph g mods =
      { nodes := g.nodes, edges := g.edges.filterMap (eRun mods) } := by
  induction mods with
  | nil =>
    intro g
    show g = { nodes := g.nodes, edges := g.edges.filterMap some }
    rw [List.filterMap_some]
  | cons m T ih =>
    intro g
    show getModifiedGraph (applyEnforcerMod g m) T = _
    rw [ih, applyEnforcerMod_char]
    simp only
    congr 1
    rw [List.filterMap_filterMap]
    refine List.filterMap_congr ?_
    intro e _
    rw [eRun_cons]

theorem eRun_eq_eResult :
    ∀ (L : List StreetModification) (e : Edge), eRun L e = eResult L e := by
  intro L
  induction L with
  | nil =>
    intro e
    show some e = eResult [] e
    simp [eResult, eRemovesAny, eMarksAny]
  | cons m T ih =>
    intro e
    rw [eRun_cons]
    unfold eStep
    by_cases hrem : eModRemoves m e.u e.v = true
    · rw [if_pos hrem]
      have h1 : eRemovesAny (m :: T) e.u e.v = true := by
        simp [eRemovesAny]
        exact Or.inl hrem
      simp [eResult, h1]
    · rw [if_neg hrem]
      have hrem2 : eRemovesAny (m :: T) e.u e.v = eRemovesAny T e.u e.v := by
        simp [eRemovesAny, List.any_cons,
          Bool.eq_false_iff.2 (fun h => hrem h)]
      by_cases hmark : rModMarks m e.u e.v = true
      · rw [if_pos hmark]
        rw [Option.some_bind, ih]
        unfold eResult
        by_cases hT : eRemovesAny T e.u e.v = true
        · rw [if_pos hT, if_pos (hrem2.trans hT)]
        · rw [if_neg (by simp [hT]), if_neg (by simp [hrem2, hT])]
          have hmarks2 : eMarksAny (m :: T) e.u e.v = true := by
            simp [eMarksAny, List.any_cons, hmark]
          simp [hmarks2]
      · rw [if_neg hmark]
        rw [Option.some_bind, ih]
        unfold eResult
        have hmarks2 : eMarksAny (m :: T) e.u e.v = eMarksAny T e.u e.v := by
          simp [eMarksAny, List.any_cons,
            Bool.eq_false_iff.2 (fun h => hmark h)]
        rw [hrem2, hmarks2]

theorem eRun_idem_pt (L : List StreetModification) (e : Edge) :
    (eRun L e).bind (eRun L) = eRun L e := by
  rw [eRun_eq_eResult]
  unfold eResult
  by_cases hrem : eRemovesAny L e.u e.v = true
  · rw [if_pos hrem]
    rfl
  · rw [if_neg hrem]
    rw [Option.some_bind, eRun_eq_eResult]
    unfold eResult
    simp only
    rw [if_neg hrem]
    congr 1
    by_cases hmatch : eMarksAny L e.u e.v = true <;> simp [hmatch]

theorem getModifiedGraph_idem (g : Graph) (mods : List StreetModification) :
    getModifiedGraph (getModifiedGraph g mods) mods =
      getModifiedGraph g mods := by
  rw [getModifiedGraph_char mods g, getModifiedGraph_char]
  show ({ nodes := g.nodes,
          edges := (g.edges.filterMap (eRun mods)).filterMap
            (eRun mods) } : Graph) = _
  congr 1
  rw [List.filterMap_filterMap]
  exact List.filterMap_congr fun e _ => eRun_idem_pt _ e

/-! ### Directed reachability

`nx.descendants` (used by the one-way direction evaluator and the
reachability reporter) is embedded with the same bounded-closure scheme as
the undirected case, over directed adjacency. -/

/-- Directed adjacency: some edge goes from `a` to `b`. -/
def adjD (es : List Edge) (a b : Nat) : Bool :=
  es.any fun e => e.u = a && e.v = b

def dirStep (g : Graph) (s : List Nat) : List Nat :=
  s ++ g.nodeIds.filter fun n => !s.contains n && s.any fun m => adjD g.edges m n

def dirIter (g : Graph) : Nat → List Nat → List Nat
  | 0, s => s
  | k + 1, s => dirIter g k (dirStep g s)

def reachListD (g : Graph) (a : Nat) : List Nat :=
  dirIter g (g.nodes.length + 1) [a]

/-- `nx.descendants(G, n)`: every node reachable from `n`, excluding `n`
itself. -/
def descendantsD (g : Graph) (n : Nat) : List Nat :=
  (reachListD g n).filter fun x => !(x = n)

/-! ### Constraint enforcer (`constraint_enforcer.py`)

The sector geometry of `_assign_sectors` / `_angle_to_sector` calls
`math.atan2` and real trigonometry; it is abstracted as a parameter
`assign : Nat → Nat` giving each node its sector index (the Python
function always yields an index `< num_sectors`).  The external max-flow
call `nx.minimum_cut`, together with the super-source/super-sink
augmentation and frontier extraction wrapped around it in
`_find_sector_disconnect_cut`, is abstracted as a `CutOracle` returning
the `(min,max)`-normalized cut pairs. -/

/-- A detected cross-sector violation (entry nodes and their sectors).
The Python `ConstraintViolation` also records a witness path from
`nx.shortest_path`; nothing downstream reads it, so it is omitted. -/
structure ViolationE where
  fromNode : Nat
  fromSector : Nat
  toNode : Nat
  toSector : Nat
deriving DecidableEq, Repr

/-- The `entry_points_by_sector` lists computed by `_assign_sectors`:
entry nodes (the constructor stores `set(entry_node_ids)`, hence `dedup`)
present in the graph whose abstract sector assignment is `s`. -/
def entrySector (g : Graph) (entryNodes : List Nat) (assign : Nat → Nat)
    (s : Nat) : List Nat :=
  entryNodes.dedup.filter fun n => g.nodeIds.contains n && assign n = s

/-- `ConstraintEnforcer._find_violations`: scan every ordered sector pair
`sa < sb < S` and every entry pair, recording pairs joined by an
undirected path. -/
def findViolations (g : Graph) (bySector : Nat → List Nat) (S : Nat) :
    List ViolationE :=
  (List.range S).flatMap fun sa =>
    (List.range' (sa + 1) (S - (sa + 1))).flatMap fun sb =>
      (bySector sa).flatMap fun a =>
        (bySector sb).filterMap fun b =>
          if a = b then none
          else if hasPathU g a b then some ⟨a, sa, b, sb⟩ else none

/-- `HIERARCHY_MAP` of `constraint_enforcer.py`. -/
def hierarchyMap (hw : String) : Option Nat :=
  if hw = "motorway" ∨ hw = "motorway_link" then some 1
  else if hw = "trunk" ∨ hw = "trunk_link" then some 2
  else if hw = "primary" ∨ hw = "primary_link" then some 3
  else if hw = "secondary" ∨ hw = "secondary_link" then some 4
  else if hw = "tertiary" ∨ hw = "tertiary_link" then some 5
  else if hw = "residential" then some 6
  else if hw = "living_street" then some 7
  else if hw = "unclassified" then some 8
  else if hw = "service" then some 9
  else none

/-- `ConstraintEnforcer._edge_cut_cost`:
`hierarchy = HIERARCHY_MAP.get(highway, 6)` then `10 - hierarchy + 1`. -/
def edgeCutCost (d : EdgeData) : ℚ :=
  10 - (((hierarchyMap d.highway).getD 6 : Nat) : ℚ) + 1

/-- Unordered endpoint match of a stored simple-graph pair, embedding the
symmetric `has_edge`/indexing of an undirected networkx `Graph`. -/
def pairMatches (p : Nat × Nat) (u v : Nat) : Bool :=
  (p.1 = u && p.2 = v) || (p.1 = v && p.2 = u)

def lookupPair : List ((Nat × Nat) × ℚ) → Nat → Nat → Option ℚ
  | [], _, _ => none
  | (p, c) :: t, u, v => if pairMatches p u v then some c else lookupPair t u v

def setPair : List ((Nat × Nat) × ℚ) → Nat → Nat → ℚ → List ((Nat × Nat) × ℚ)
  | [], _, _, _ => []
  | (p, c) :: t, u, v, cNew =>
      if pairMatches p u v then (p, cNew) :: t
      else (p, c) :: setPair t u v cNew

/-- One step of the `G_simple` construction in
`_compute_modification_plan`: keep the minimum capacity among parallel
edges of an unordered node pair.  (The Python `get("capacity", 1)` default
is never exercised: every stored pair carries a capacity.) -/
def addSimpleEdge (acc : List ((Nat × Nat) × ℚ)) (u v : Nat) (c : ℚ) :
    List ((Nat × Nat) × ℚ) :=
  match lookupPair acc u v with
  | some cap => if c < cap then setPair acc u v c else acc
  | none => acc ++ [((u, v), c)]

/-- The undirected simple capacity graph built from the multigraph edges. -/
def buildSimpleGraph (es : List Edge) : List ((Nat × Nat) × ℚ) :=
  es.foldl (fun acc e => addSimpleEdge acc e.u e.v (edgeCutCost e.d)) []

/-- Node set of the simple graph (nodes of an undirected networkx `Graph`
built purely by `add_edge`). -/
def simpleNodes (gs : List ((Nat × Nat) × ℚ)) : List Nat :=
  gs.flatMap fun pc => [pc.1.1, pc.1.2]

/-- Oracle abstracting `nx.minimum_cut` plus the super-source/super-sink
augmentation and cut-frontier extraction of
`_find_sector_disconnect_cut`. -/
def CutOracle : Type :=
  List ((Nat × Nat) × ℚ) → List Nat → List Nat → List (Nat × Nat)

/-- `ConstraintEnforcer._find_sector_disconnect_cut`: empty-group guards
and filtering to graph-present entries are from the source; the max-flow
itself is the oracle. -/
def findSectorDisconnectCut (cut : CutOracle) (gs : List ((Nat × Nat) × ℚ))
    (entriesA entriesB : List Nat) : List (Nat × Nat) :=
  if entriesA.isEmpty || entriesB.isEmpty then []
  else
    let fA := entriesA.filter fun n => (simpleNodes gs).contains n
    let fB := entriesB.filter fun n => (simpleNodes gs).contains n
    if fA.isEmpty || fB.isEmpty then []
    else cut gs fA fB

/-- `ConstraintEnforcer._evaluate_direction_score`: per sector and entry,
reward the number of reachable nodes and penalize reachable cross-sector
entries by 1000 each. -/
def evaluateDirectionScore (g : Graph) (bySector : Nat → List Nat)
    (S : Nat) : ℚ :=
  ((List.range S).map fun s =>
    ((bySector s).map fun entry =>
      if g.nodeIds.contains entry then
        let reach := descendantsD g entry
        ((reach.length : ℚ)) -
          1000 * (((((List.range S).filter fun t => !(t = s)).map fun t =>
            ((bySector t).filter fun o => reach.contains o).length).sum : Nat) : ℚ)
      else 0).sum).sum

/-- `ConstraintEnforcer._compute_optimal_one_way_direction`: score both
candidate directions on a copy with the opposite edges removed; the loop
starts from `best_score = -inf` and switches only on a strictly greater
score, so ties keep `u_to_v`. -/
def computeOptimalOneWayDirection (g : Graph) (bySector : Nat → List Nat)
    (S : Nat) (u v : Nat) : OneWayDir :=
  let scoreUV := evaluateDirectionScore (removeDir g v u) bySector S
  let scoreVU := evaluateDirectionScore (removeDir g u v) bySector S
  if scoreVU > scoreUV then .vToU else .uToV

/-- `ConstraintEnforcer._determine_modification_type`. -/
def determineModificationType (g : Graph) (bySector : Nat → List Nat)
    (S : Nat) (u v : Nat) (d : EdgeData) : ModificationType × Option OneWayDir :=
  if (hierarchyMap d.highway).getD 6 ≤ 5 then
    (.oneWay, some (computeOptimalOneWayDirection g bySector S u v))
  else (.modalFilter, none)

/-- The parallel edges from `a` to `b` (`G[a][b].items()` behind a
`has_edge` guard). -/
def edgesBetween (g : Graph) (a b : Nat) : List Edge :=
  g.edges.filter fun e => e.u = a && e.v = b

/-- Insert-or-overwrite on the `one_way_conversions` dict: a Python dict
keeps the first-insertion position on overwrite. -/
def owInsert (l : List ((Nat × Nat × Nat) × OneWayDir)) (k : Nat × Nat × Nat)
    (dir : OneWayDir) : List ((Nat × Nat × Nat) × OneWayDir) :=
  match l with
  | [] => [(k, dir)]
  | (k', d') :: t => if k' = k then (k', dir) :: t else (k', d') :: owInsert t k dir

def owContains (l : List ((Nat × Nat × Nat) × OneWayDir))
    (k : Nat × Nat × Nat) : Bool :=
  l.any fun p => p.1 = k

/-- Add one cut edge keeping insertion order (the Python `cut_edges` is a
set; its later iteration order is embedded as insertion order). -/
def addCutEdge (cur : List (Nat × Nat)) (p : Nat × Nat) : List (Nat × Nat) :=
  if cur.contains p then cur else cur ++ [p]

def addCutEdges (cur new : List (Nat × Nat)) : List (Nat × Nat) :=
  new.foldl addCutEdge cur

/-- The violation loop of `_compute_modification_plan`: one min-cut per
unordered sector pair, tracked via `processed_pairs`. -/
def planCutEdges (cut : CutOracle) (gs : List ((Nat × Nat) × ℚ))
    (bySector : Nat → List Nat) (violations : List ViolationE) :
    List (Nat × Nat) :=
  (violations.foldl (fun (st : List (Nat × Nat) × List (Nat × Nat)) viol =>
    let pairKey := (min viol.fromSector viol.toSector,
                    max viol.fromSector viol.toSector)
    if st.2.contains pairKey then st
    else
      let sectorCuts := findSectorDisconnectCut cut gs
        (bySector viol.fromSector) (bySector viol.toSector)
      (addCutEdges st.1 sectorCuts, st.2 ++ [pairKey])) ([], [])).1

/-- Modification plan (`ModificationPlan` dataclass). -/
structure ModificationPlanE where
  modalFilters : List (Nat × Nat × Nat)
  oneWayConversions : List ((Nat × Nat × Nat) × OneWayDir)
  cutEdges : List (Nat × Nat)
deriving Repr

/-- The per-cut-edge classification loop of `_compute_modification_plan`
(forward direction unguarded, reverse direction deduplicated as in the
source). -/
def classifyCutEdge (g : Graph) (bySector : Nat → List Nat) (S : Nat)
    (st : List (Nat × Nat × Nat) × List ((Nat × Nat × Nat) × OneWayDir))
    (uv : Nat × Nat) :
    List (Nat × Nat × Nat) × List ((Nat × Nat × Nat) × OneWayDir) :=
  let st1 := (edgesBetween g uv.1 uv.2).foldl (fun st e =>
    match determineModificationType g bySector S uv.1 uv.2 e.d with
    | (.modalFilter, _) => (st.1 ++ [(uv.1, uv.2, e.key)], st.2)
    | (.oneWay, some dir) => (st.1, owInsert st.2 (uv.1, uv.2, e.key) dir)
    | _ => st) st
  (edgesBetween g uv.2 uv.1).foldl (fun st e =>
    match determineModificationType g bySector S uv.2 uv.1 e.d with
    | (.modalFilter, _) =>
        if st.1.contains (uv.2, uv.1, e.key) then st
        else (st.1 ++ [(uv.2, uv.1, e.key)], st.2)
    | (.oneWay, some dir) =>
        if owContains st.2 (uv.2, uv.1, e.key) then st
        else (st.1, owInsert st.2 (uv.2, uv.1, e.key) dir)
    | _ => st) st1

/-- `ConstraintEnforcer._compute_modification_plan`. -/
def computeModificationPlan (cut : CutOracle) (g : Graph)
    (bySector : Nat → List Nat) (S : Nat) (violations : List ViolationE) :
    ModificationPlanE :=
  let gs := buildSimpleGraph g.edges
  let cutEdges := planCutEdges cut gs bySector violations
  let cls := cutEdges.foldl (classifyCutEdge g bySector S) ([], [])
  { modalFilters := cls.1, oneWayConversions := cls.2, cutEdges := cutEdges }

def hasEdgeKey (g : Graph) (u v k : Nat) : Bool :=
  g.edges.any fun e => e.u = u && e.v = v && e.key = k

/-- `ConstraintEnforcer._generate_modifications` (the emitted OSM id, name,
midpoint coordinates and rationale strings are display-only and
omitted). -/
def generateModifications (g : Graph) (plan : ModificationPlanE) :
    List StreetModification :=
  (plan.modalFilters.filterMap fun t =>
    if hasEdgeKey g t.1 t.2.1 t.2.2 then
      some { u := t.1, v := t.2.1, key := t.2.2,
             modType := .modalFilter, direction := none }
    else none) ++
  (plan.oneWayConversions.filterMap fun p =>
    if hasEdgeKey g p.1.1 p.1.2.1 p.1.2.2 then
      some { u := p.1.1, v := p.1.2.1, key := p.1.2.2,
             modType := .oneWay, direction := some p.2 }
    else none)

/-- `ConstraintEnforcer._validate_modifications`: re-run violation
detection on a scratch copy with the modifications applied (the sector
lists were computed on the original graph and are reused). -/
def validateModifications (g : Graph) (bySector : Nat → List Nat) (S : Nat)
    (mods : List StreetModification) : List ViolationE :=
  findViolations (applyValidateMods g mods) bySector S

/-- `ConstraintEnforcer.enforce_constraints`. -/
def enforceConstraints (cut : CutOracle) (g : Graph) (entryNodes : List Nat)
    (assign : Nat → Nat) (S : Nat) :
    List StreetModification × List ViolationE :=
  let bySector := entrySector g entryNodes assign
  if entryNodes.dedup.length < 2 then ([], [])
  else
    let violations := findViolations g bySector S
    if violations.isEmpty then ([], [])
    else
      let plan := computeModificationPlan cut g bySector S violations
      let mods := generateModifications g plan
      let rems := validateModifications g bySector S mods
      (mods, rems)

/-- State-threaded variant tracking the enforcer's `self.graph` field: the
constructor stores a copy of the caller's graph (identity under value
semantics); `_validate_modifications` temporarily rebinds `self.graph` to
the modification-applied scratch copy and rebinds the original afterward.
The second component is `self.graph` when `enforce_constraints` returns. -/
def enforceConstraintsTracked (cut : CutOracle) (g0 : Graph)
    (entryNodes : List Nat) (assign : Nat → Nat) (S : Nat) :
    (List StreetModification × List ViolationE) × Graph :=
  let gSelf := g0
  let bySector := entrySector gSelf entryNodes assign
  if entryNodes.dedup.length < 2 then (([], []), gSelf)
  else
    let violations := findViolations gSelf bySector S
    if violations.isEmpty then (([], []), gSelf)
    else
      let plan := computeModificationPlan cut gSelf bySector S violations
      let mods := generateModifications gSelf plan
      let modifiedGraph := applyValidateMods gSelf mods
      let gDuringValidation := modifiedGraph
      let rems := findViolations gDuringValidation bySector S
      let gRestored := gSelf
      ((mods, rems), gRestored)

/-- Entry point record (node id and assigned sector). -/
structure EntryPointE where
  nodeId : Nat
  sector : Nat
deriving DecidableEq, Repr

/-- The fields of `EnforcedSuperblock` that the fallback path of
`CityPartitioner._create_simple_superblock` sets and the
constraint-validity invariant reads. -/
structure SimpleSuperblockE where
  entryPoints : List EntryPointE
  modifications : List StreetModification
  constraintValidated : Bool
deriving DecidableEq, Repr

/-- `CityPartitioner._create_simple_superblock`: every entry point gets
sector 0, no modifications, `constraint_validated = True`. -/
def createSimpleSuperblock (entryNodes : List Nat) : SimpleSuperblockE :=
  { entryPoints := entryNodes.map fun n => { nodeId := n, sector := 0 },
    modifications := [],
    constraintValidated := true }

theorem mem_entrySector {g : Graph} {entries : List Nat} {assign : Nat → Nat}
    {s a : Nat} :
    a ∈ entrySector g entries assign s ↔
      a ∈ entries ∧ a ∈ g.nodeIds ∧ assign a = s := by
  simp [entrySector, List.mem_filter, List.mem_dedup, Bool.and_eq_true,
    contains_iff_mem, and_assoc]

/-- `_find_violations` returns no violation exactly when no two distinct
entry nodes of different sectors are joined by an undirected path. -/
theorem findViolations_eq_nil_iff (g : Graph) (bySector : Nat → List Nat)
    (S : Nat) :
    findViolations g bySector S = [] ↔
      ∀ sa sb, sa < sb → sb < S → ∀ a ∈ bySector sa, ∀ b ∈ bySector sb,
        a ≠ b → hasPathU g a b = false := by
  unfold findViolations
  rw [List.flatMap_eq_nil_iff]
  constructor
  · intro h sa sb hab hbS a ha b hb hne
    have hsa : sa ∈ List.range S := List.mem_range.2 (lt_trans hab hbS)
    have h1 := h sa hsa
    rw [List.flatMap_eq_nil_iff] at h1
    have hsb : sb ∈ List.range' (sa + 1) (S - (sa + 1)) := by
      rw [List.mem_range'_1]
      omega
    have h2 := h1 sb hsb
    rw [List.flatMap_eq_nil_iff] at h2
    have h3 := h2 a ha
    rw [List.filterMap_eq_nil_iff] at h3
    have h4 := h3 b hb
    rw [if_neg hne] at h4
    by_contra hp
    rw [Bool.not_eq_false] at hp
    rw [if_pos hp] at h4
    exact Option.some_ne_none _ h4
  · intro h sa hsa
    rw [List.flatMap_eq_nil_iff]
    intro sb hsb
    rw [List.flatMap_eq_nil_iff]
    intro a ha
    rw [List.filterMap_eq_nil_iff]
    intro b hb
    by_cases hne : a = b
    · rw [if_pos hne]
    · rw [if_neg hne]
      rw [List.mem_range'_1] at hsb
      rw [List.mem_range] at hsa
      have hp := h sa sb (by omega) (by omega) a ha b hb hne
      simp [hp]

theorem two_mem_dedup_length {l : List Nat} {a b : Nat} (ha : a ∈ l)
    (hb : b ∈ l) (hne : a ≠ b) : 2 ≤ l.dedup.length := by
  have ha' : a ∈ l.dedup := List.mem_dedup.2 ha
  have hb' : b ∈ l.dedup := List.mem_dedup.2 hb
  rcases hd : l.dedup with _ | ⟨x, t⟩
  · rw [hd] at ha'
    simp at ha'
  · rcases t with _ | ⟨y, t2⟩
    · rw [hd] at ha' hb'
      simp at ha' hb'
      exact absurd (ha'.trans hb'.symm) hne
    · simp

/-! ### Superblock-aware router (`superblock_router.py`)

`SuperblockRouter._astar` is embedded with explicit fuel for its
`while open_set` loop (a Python run either terminates or loops forever;
exhausted fuel returns `none`, the embedding of "no result returned").
The float `math.sqrt` heuristic only influences the priority-queue pop
order, so it is a parameter `h`; `heapq` pops a least-`f_score` element
(the order among equal keys is heap-internal; the embedding takes the
first minimum). -/

/-- Priority-queue entry (`PriorityNode`; its `came_from`/`in_superblock`
fields are never written by the source, so only `f_score` and `node_id`
remain). -/
structure PNode where
  f : ℚ
  node : Nat
deriving DecidableEq, Repr

def popMin : List PNode → Option (PNode × List PNode)
  | [] => none
  | p :: rest =>
    match popMin rest with
    | none => some (p, [])
    | some (q, rest') =>
        if p.f ≤ q.f then some (p, rest) else some (q, p :: rest')

def lookupNat : List (Nat × Nat) → Nat → Option Nat
  | [], _ => none
  | (k, w) :: t, n => if k = n then some w else lookupNat t n

def lookupQ : List (Nat × ℚ) → Nat → Option ℚ
  | [], _ => none
  | (k, w) :: t, n => if k = n then some w else lookupQ t n

/-- The cost-factor arterial set of `_astar` (without `_link` variants). -/
def costArterialClasses : List String := ["primary", "secondary", "tertiary"]

/-- The arterial highway classes accepted by the `allow_interior = False`
filter (these do include the `_link` variants). -/
def filterArterialClasses : List String :=
  ["primary", "secondary", "tertiary",
   "primary_link", "secondary_link", "tertiary_link"]

/-- Edge cost in `_astar`: `length * cost_factor` with factor 1.0 for
`{primary, secondary, tertiary}`, else 1.5 when interior edges are
allowed and 10.0 otherwise. -/
def astarEdgeCost (d : EdgeData) (allowInterior : Bool) : ℚ :=
  d.length * (if costArterialClasses.contains d.highway then 1
              else if allowInterior then 3 / 2 else 10)

/-- The three sequential `continue` guards of the `_astar` neighbor loop:
`vehicle_blocked`, the non-arterial check when interior is disallowed, and
the foreign-superblock restriction. -/
def astarSkips (arterials : List Int) (allowInterior : Bool)
    (restrict : Option String) (d : EdgeData) : Bool :=
  d.vehicleBlocked ||
  (!allowInterior && !(arterials.contains d.osmid) &&
    !(filterArterialClasses.contains d.highway)) ||
  (match restrict, d.superblockId with
   | some r, some s => !(s = r)
   | _, _ => false)

structure AStarState where
  openSet : List PNode
  cameFrom : List (Nat × Nat)
  gScore : List (Nat × ℚ)

/-- Relaxation of one out-edge (`g_score[current]` is always present in
the source; the `getD 0` default is unreachable). -/
def relaxStep (arterials : List Int) (allowInterior : Bool)
    (restrict : Option String) (h : Nat → ℚ) (cur : Nat)
    (st : AStarState) (e : Edge) : AStarState :=
  if astarSkips arterials allowInterior restrict e.d then st
  else
    let tg := (lookupQ st.gScore cur).getD 0 + astarEdgeCost e.d allowInterior
    match lookupQ st.gScore e.v with
    | none =>
        { openSet := st.openSet ++ [⟨tg + h e.v, e.v⟩],
          cameFrom := (e.v, cur) :: st.cameFrom,
          gScore := (e.v, tg) :: st.gScore }
    | some old =>
        if tg < old then
          { openSet := st.openSet ++ [⟨tg + h e.v, e.v⟩],
            cameFrom := (e.v, cur) :: st.cameFrom,
            gScore := (e.v, tg) :: st.gScore }
        else st

/-- The `for _, neighbor, key, data in out_edges(current)` loop. -/
def relaxNeighbors (g : Graph) (arterials : List Int) (allowInterior : Bool)
    (restrict : Option String) (h : Nat → ℚ) (cur : Nat)
    (st : AStarState) : AStarState :=
  (g.edges.filter fun e => e.u = cur).foldl
    (relaxStep arterials allowInterior restrict h cur) st

/-- Path reconstruction (`while node in came_from`), fuelled: a cyclic
`came_from` makes the Python loop diverge, embedded as `none`. -/
def reconstructPath :
    Nat → List (Nat × Nat) → Nat → List Nat → Option (List Nat)
  | 0, _, _, _ => none
  | fuel + 1, came, node, acc =>
    match lookupNat came node with
    | none => some acc
    | some p => reconstructPath fuel came p (p :: acc)

def astarLoop (g : Graph) (arterials : List Int) (allowInterior : Bool)
    (restrict : Option String) (h : Nat → ℚ) (goal : Nat) :
    Nat → AStarState → Option (List Nat)
  | 0, _ => none
  | fuel + 1, st =>
    match popMin st.openSet with
    | none => none
    | some (cur, rest) =>
      if cur.node = goal then
        reconstructPath (st.cameFrom.length + 1) st.cameFrom goal [goal]
      else
        astarLoop g arterials allowInterior restrict h goal fuel
          (relaxNeighbors g arterials allowInterior restrict h cur.node
            { st with openSet := rest })

/-- `SuperblockRouter._astar`. -/
def astar (g : Graph) (arterials : List Int) (allowInterior : Bool)
    (restrict : Option String) (h : Nat → ℚ) (start goal : Nat)
    (fuel : Nat) : Option (List Nat) :=
  if g.nodeIds.contains start && g.nodeIds.contains goal then
    astarLoop g arterials allowInterior restrict h goal fuel
      { openSet := [⟨h start, start⟩], cameFrom := [], gScore := [(start, 0)] }
  else none

/-- A step `a → b` is vehicle-passable: some unblocked edge goes from `a`
to `b`. -/
def okStep (g : Graph) (a b : Nat) : Prop :=
  ∃ e ∈ g.edges, e.u = a ∧ e.v = b ∧ e.d.vehicleBlocked = false

/-- Invariant: every `came_from` entry was produced by relaxing an
unblocked edge. -/
def CameOK (g : Graph) (came : List (Nat × Nat)) : Prop :=
  ∀ pr ∈ came, okStep g pr.2 pr.1

theorem lookupNat_mem :
    ∀ {l : List (Nat × Nat)} {n w : Nat}, lookupNat l n = some w → (n, w) ∈ l := by
  intro l
  induction l with
  | nil => intro n w h; cases h
  | cons p t ih =>
    intro n w h
    obtain ⟨k, w'⟩ := p
    unfold lookupNat at h
    by_cases hk : k = n
    · rw [if_pos hk] at h
      injection h with h
      subst hk
      subst h
      exact List.mem_cons_self _ _
    · rw [if_neg hk] at h
      exact List.mem_cons_of_mem _ (ih h)

theorem reconstructPath_chain (R : Nat → Nat → Prop)
    {came : List (Nat × Nat)} (hcame : ∀ pr ∈ came, R pr.2 pr.1) :
    ∀ (fuel node : Nat) (acc path : List Nat),
      acc.head? = some node → List.Chain' R acc →
      reconstructPath fuel came node acc = some path → List.Chain' R path := by
  intro fuel
  induction fuel with
  | zero => intro node acc path _ _ h; cases h
  | succ fuel ih =>
    intro node acc path hhead hchain h
    unfold reconstructPath at h
    cases hl : lookupNat came node with
    | none =>
      rw [hl] at h
      injection h with h
      subst h
      exact hchain
    | some p =>
      rw [hl] at h
      refine ih p (p :: acc) path rfl ?_ h
      have hR : R p node := hcame (node, p) (lookupNat_mem hl)
      cases acc with
      | nil => cases hhead
      | cons x t =>
        injection hhead with hx
        subst hx
        exact List.chain'_cons.2 ⟨hR, hchain⟩

theorem relaxStep_came {g : Graph} {arterials : List Int}
    {allowInterior : Bool} {restrict : Option String} {h : Nat → ℚ}
    {cur : Nat} {st : AStarState} {e : Edge} (he : e ∈ g.edges)
    (heu : e.u = cur) (hst : CameOK g st.cameFrom) :
    CameOK g (relaxStep arterials allowInterior restrict h cur st e).cameFrom := by
  unfold relaxStep
  by_cases hskip : astarSkips arterials allowInterior restrict e.d = true
  · rw [if_pos hskip]
    exact hst
  · rw [if_neg hskip]
    have hblocked : e.d.vehicleBlocked = false := by
      unfold astarSkips at hskip
      rcases hb : e.d.vehicleBlocked
      · rfl
      · rw [hb] at hskip
        simp at hskip
    have hok : okStep g cur e.v := ⟨e, he, heu, rfl, hblocked⟩
    cases lookupQ st.gScore e.v with
    | none =>
      dsimp only
      intro pr hpr
      rcases List.mem_cons.1 hpr with hp | hp
      · subst hp
        exact hok
      · exact hst pr hp
    | some old =>
      dsimp only
      by_cases hlt : (lookupQ st.gScore cur).getD 0 +
          astarEdgeCost e.d allowInterior < old
      · rw [if_pos hlt]
        intro pr hpr
        rcases List.mem_cons.1 hpr with hp | hp
        · subst hp
          exact hok
        · exact hst pr hp
      · rw [if_neg hlt]
        exact hst

theorem relaxNeighbors_came {g : Graph} {arterials : List Int}
    {allowInterior : Bool} {restrict : Option String} {h : Nat → ℚ}
    {cur : Nat} {st : AStarState} (hst : CameOK g st.cameFrom) :
    CameOK g (relaxNeighbors g arterials allowInterior restrict h cur st).cameFrom := by
  unfold relaxNeighbors
  have hgen : ∀ (es : List Edge), (∀ e ∈ es, e ∈ g.edges ∧ e.u = cur) →
      ∀ st : AStarState, CameOK g st.cameFrom →
      CameOK g ((es.foldl
        (relaxStep arterials allowInterior restrict h cur) st).cameFrom) := by
    intro es
    induction es with
    | nil => intro _ st hst2; exact hst2
    | cons e t ih =>
      intro hall st hst2
      rw [List.foldl_cons]
      refine ih (fun x hx => hall x (List.mem_cons_of_mem _ hx)) _ ?_
      obtain ⟨hemem, heu⟩ := hall e (List.mem_cons_self _ _)
      exact relaxStep_came hemem heu hst2
  refine hgen _ ?_ st hst
  intro e he
  obtain ⟨hemem, hcond⟩ := List.mem_filter.1 he
  exact ⟨hemem, by simpa using hcond⟩

theorem astarLoop_chain {g : Graph} {arterials : List Int}
    {allowInterior : Bool} {restrict : Option String} {h : Nat → ℚ}
    {goal : Nat} :
    ∀ (fuel : Nat) (st : AStarState), CameOK g st.cameFrom →
      ∀ path, astarLoop g arterials allowInterior restrict h goal fuel st =
        some path → List.Chain' (okStep g) path := by
  intro fuel
  induction fuel with
  | zero => intro st _ path hp; cases hp
  | succ fuel ih =>
    intro st hst path hp
    unfold astarLoop at hp
    cases hpop : popMin st.openSet with
    | none =>
      rw [hpop] at hp
      cases hp
    | some pr =>
      rw [hpop] at hp
      obtain ⟨cur, rest⟩ := pr
      dsimp only at hp
      by_cases hgoal : cur.node = goal
      · rw [if_pos hgoal] at hp
        exact reconstructPath_chain (okStep g) hst _ goal [goal] path rfl
          (List.chain'_singleton _) hp
      · rw [if_neg hgoal] at hp
        exact ih _ (@relaxNeighbors_came g arterials allowInterior restrict h
          cur.node { st with openSet := rest } hst) path hp

/-- Every path the A* returns only ever steps along unblocked edges. -/
theorem astar_chain {g : Graph} {arterials : List Int} {allowInterior : Bool}
    {restrict : Option String} {h : Nat → ℚ} {start goal fuel : Nat}
    {path : List Nat}
    (hp : astar g arterials allowInterior restrict h start goal fuel =
      some path) : List.Chain' (okStep g) path := by
  unfold astar at hp
  by_cases hmem : (g.nodeIds.contains start && g.nodeIds.contains goal) = true
  · rw [if_pos hmem] at hp
    refine astarLoop_chain fuel _ ?_ path hp
    intro pr hpr
    cases hpr
  · rw [if_neg hmem] at hp
    cases hp

/-- Coordinates (`Coordinates` schema: lat/lon). -/
structure Coords where
  lat : ℚ
  lon : ℚ
deriving DecidableEq, Repr

/-- `SuperblockRouter._find_nearest_node`: scan all nodes (skipping those
without `x`/`y`), keeping the first strict minimizer of the squared
lon/lat distance. -/
def findNearestNode (g : Graph) (c : Coords) : Option Nat :=
  (g.nodes.foldl (fun best nd =>
    if nd.2.hasXY then
      let dist := (nd.2.x - c.lon) * (nd.2.x - c.lon) +
                  (nd.2.y - c.lat) * (nd.2.y - c.lat)
      match best with
      | none => some (nd.1, dist)
      | some bd => if dist < bd.2 then some (nd.1, dist) else some bd
    else best) none).map Prod.fst

/-- Route segment (fields the route-level claims read). -/
structure RouteSegE where
  roadType : String
  isArterial : Bool
  lengthM : ℚ
deriving DecidableEq, Repr

/-- `RouteResult` schema with its Pydantic defaults (`segments = []`,
distances 0, `arterial_percent = 0`, `superblocks_traversed = []`,
`blocked_reason = None`, `alternative_available = False`). -/
structure RouteResultE where
  success : Bool
  segments : List RouteSegE
  totalDistanceKm : ℚ
  estimatedTimeMin : ℚ
  arterialPercent : ℚ
  superblocksTraversed : List String
  blockedReason : Option String
  alternativeAvailable : Bool
deriving DecidableEq, Repr

/-- `SuperblockRouter.route` up to and including its equal-snap early
return.  Everything after that return — the containing-superblock lookups
and the strategy dispatch on `respect_superblocks` — is the continuation
`strategy`, so a statement proved for every `strategy` holds before any
superblock containment check and regardless of `respect_superblocks`. -/
def route (g : Graph) (strategy : Nat → Nat → RouteResultE)
    (origin destination : Coords) : RouteResultE :=
  match findNearestNode g origin with
  | none =>
      { success := false, segments := [], totalDistanceKm := 0,
        estimatedTimeMin := 0, arterialPercent := 0,
        superblocksTraversed := [],
        blockedReason := some "Could not find road near origin",
        alternativeAvailable := false }
  | some originNode =>
    match findNearestNode g destination with
    | none =>
        { success := false, segments := [], totalDistanceKm := 0,
          estimatedTimeMin := 0, arterialPercent := 0,
          superblocksTraversed := [],
          blockedReason := some "Could not find road near destination",
          alternativeAvailable := false }
    | some destNode =>
      if originNode = destNode then
        { success := true, segments := [], totalDistanceKm := 0,
          estimatedTimeMin := 0, arterialPercent := 100,
          superblocksTraversed := [], blockedReason := none,
          alternativeAvailable := false }
      else strategy originNode destNode

/-! ### Partitioner geometry (`city_partitioner.py`) and centrality
sampling (`superblock_analyzer.py`, `city_partitioner.py`) -/

inductive HemisphereE
  | north
  | south
deriving DecidableEq, Repr

/-- Python `int()` on a rational: truncation toward zero. -/
def pyInt (q : ℚ) : ℤ :=
  if 0 ≤ q then ⌊q⌋ else ⌈q⌉

/-- The UTM zone computed by `_calculate_area_hectares`:
`int((centroid.x + 180) / 6) + 1`. -/
def utmZone (cx : ℚ) : ℤ :=
  pyInt ((cx + 180) / 6) + 1

/-- `"north" if centroid.y >= 0 else "south"`. -/
def hemisphereOf (cy : ℚ) : HemisphereE :=
  if 0 ≤ cy then .north else .south

/-- A polygon abstracted to what `_calculate_area_hectares` reads:
centroid and bounds (`west`, `south`, `east`, `north` =
`bounds[0..3]`). -/
structure PolyE where
  cx : ℚ
  cy : ℚ
  west : ℚ
  south : ℚ
  east : ℚ
  north : ℚ
deriving DecidableEq, Repr

/-- `CityPartitioner._calculate_area_hectares`, with the pyproj
transformation abstracted as `proj` (fed the zone and hemisphere the
source computes; `none` embeds the exception path).  Note the fallback
scales BOTH extents by 111000 m/deg, with no `cos(lat)` factor. -/
def calculateAreaHectares
    (proj : ℤ → HemisphereE → PolyE → Option ℚ) (p : PolyE) : ℚ :=
  match proj (utmZone p.cx) (hemisphereOf p.cy) p with
  | some aSqm => aSqm / 10000
  | none =>
    (|p.east - p.west| * 111000 * (|p.north - p.south| * 111000)) / 10000

/-- The arguments handed to `nx.edge_betweenness_centrality`. -/
structure CentralityCall where
  k : Option Nat
  seed : Nat
  weight : String
deriving DecidableEq, Repr

/-- `SuperblockAnalyzer.analyze` sampling rule (thresholds 2500 / 200 /
800, ratio 0.10): `int(node_count * 0.10)` truncates, which on this range
equals `n / 10` in naturals. -/
def analyzerApproxK (n : Nat) : Option Nat :=
  if 2500 ≤ n then some (min (min 800 (max 200 (n / 10))) n) else none

def analyzerCentralityCall (n : Nat) : CentralityCall :=
  { k := analyzerApproxK n, seed := 42, weight := "length" }

/-- `CityPartitioner._identify_arterials`:
`k = min(500, num_nodes) if num_nodes > 1000 else None`. -/
def partitionerApproxK (n : Nat) : Option Nat :=
  if 1000 < n then some (min 500 n) else none

/-- The partitioner computes centrality only when `num_nodes > 100`. -/
def partitionerCentralityCall (n : Nat) : Option CentralityCall :=
  if 100 < n then
    some { k := partitionerApproxK n, seed := 42, weight := "weight" }
  else none

/-- Modelled from the spec (claim wording): sampling iff `n ≥ 2500` with
`k = clamp(⌈0.10·n⌉, 200, 800, ≤ n)`.  For refinement comparison only. -/
def claimApproxK (n : Nat) : Option Nat :=
  if 2500 ≤ n then some (min (min 800 (max 200 ((n + 9) / 10))) n) else none

/-- Modelled from the spec (claim wording): A* cost factor 1.0 for every
arterial class including the `_link` variants.  For refinement comparison
only. -/
def astarEdgeCostClaim (d : EdgeData) (allowInterior : Bool) : ℚ :=
  d.length * (if filterArterialClasses.contains d.highway then 1
              else if allowInterior then 3 / 2 else 10)

/-! ### Capacity-graph characterization (used by the cut-computation
claim): `lookupPair` on `buildSimpleGraph` returns the minimum cut cost
over all parallel edges of an unordered node pair. -/

/-- Minimum of two optional rationals (`none` is the identity). -/
def optMinQ : Option ℚ → Option ℚ → Option ℚ
  | none, y => y
  | some x, none => some x
  | some x, some y => some (min x y)

/-- Optional minimum of a list. -/
def minQList : List ℚ → Option ℚ
  | [] => none
  | c :: t => optMinQ (some c) (minQList t)

theorem optMinQ_none_right : ∀ x : Option ℚ, optMinQ x none = x := by
  intro x
  cases x <;> rfl

theorem optMinQ_assoc (x y z : Option ℚ) :
    optMinQ (optMinQ x y) z = optMinQ x (optMinQ y z) := by
  cases x <;> cases y <;> cases z <;> simp [optMinQ, min_assoc]

theorem pairMatches_symm (q : Nat × Nat) (x y : Nat) :
    pairMatches q x y = pairMatches q y x := by
  simp [pairMatches, Bool.or_comm]

theorem pairMatches_congr {a b u v : Nat}
    (h : pairMatches (a, b) u v = true) :
    ∀ q : Nat × Nat, pairMatches q a b = pairMatches q u v := by
  intro q
  simp only [pairMatches, Bool.or_eq_true, Bool.and_eq_true,
    decide_eq_true_eq] at h
  rcases h with ⟨ha, hb⟩ | ⟨ha, hb⟩
  · rw [ha, hb]
  · rw [ha, hb]
    exact pairMatches_symm q v u

theorem lookupPair_congr {a b u v : Nat}
    (h : pairMatches (a, b) u v = true) :
    ∀ acc : List ((Nat × Nat) × ℚ), lookupPair acc a b = lookupPair acc u v := by
  intro acc
  induction acc with
  | nil => rfl
  | cons pc t ih =>
    obtain ⟨p, c⟩ := pc
    show (if pairMatches p a b then some c else lookupPair t a b) = _
    rw [pairMatches_congr h p, ih]
    rfl

theorem bool_eq_false_of_not {b : Bool} (h : ¬ b = true) : b = false := by
  cases hb : b
  · rfl
  · exact absurd hb h

theorem lookupPair_setPair_matches {a b u v : Nat} {c : ℚ}
    (h : pairMatches (a, b) u v = true) :
    ∀ acc : List ((Nat × Nat) × ℚ),
      lookupPair (setPair acc a b c) u v =
        match lookupPair acc u v with
        | some _ => some c
        | none => none := by
  intro acc
  induction acc with
  | nil => rfl
  | cons pc t ih =>
    obtain ⟨p, cp⟩ := pc
    by_cases hp : pairMatches p a b = true
    · have hp2 : pairMatches p u v = true := pairMatches_congr h p ▸ hp
      simp [setPair, lookupPair, hp, hp2]
    · have hpf : pairMatches p a b = false := bool_eq_false_of_not hp
      have hp2 : pairMatches p u v = false := pairMatches_congr h p ▸ hpf
      simp [setPair, lookupPair, hpf, hp2, ih]

theorem lookupPair_setPair_no_match {a b u v : Nat} {c : ℚ}
    (h : pairMatches (a, b) u v = false) :
    ∀ acc : List ((Nat × Nat) × ℚ),
      lookupPair (setPair acc a b c) u v = lookupPair acc u v := by
  intro acc
  induction acc with
  | nil => rfl
  | cons pc t ih =>
    obtain ⟨p, cp⟩ := pc
    by_cases hp : pairMatches p a b = true
    · -- the replaced entry cannot match (u, v): that would force
      -- pairMatches (a, b) u v
      have hp2 : pairMatches p u v = false := by
        by_contra hx
        have hx' : pairMatches p u v = true := by
          cases hv : pairMatches p u v
          · exact absurd hv hx
          · rfl
        have : pairMatches (a, b) u v = true := by
          simp only [pairMatches, Bool.or_eq_true, Bool.and_eq_true,
            decide_eq_true_eq] at hp hx' ⊢
          rcases hp with ⟨h1, h2⟩ | ⟨h1, h2⟩ <;>
            rcases hx' with ⟨h3, h4⟩ | ⟨h3, h4⟩ <;>
              [skip; skip; skip; skip] <;> omega
        rw [this] at h
        cases h
      simp [setPair, lookupPair, hp, hp2]
    · have hpf : pairMatches p a b = false := bool_eq_false_of_not hp
      simp [setPair, lookupPair, hpf, ih]

theorem lookupPair_append {a b u v : Nat} {c : ℚ} :
    ∀ acc : List ((Nat × Nat) × ℚ),
      lookupPair (acc ++ [((a, b), c)]) u v =
        match lookupPair acc u v with
        | some cp => some cp
        | none => if pairMatches (a, b) u v then some c else none := by
  intro acc
  induction acc with
  | nil =>
    show (if pairMatches (a, b) u v then some c else lookupPair [] u v) = _
    by_cases hp : pairMatches (a, b) u v = true <;> simp [hp, lookupPair]
  | cons pc t ih =>
    obtain ⟨p, cp⟩ := pc
    by_cases hp : pairMatches p u v = true <;>
      simp [lookupPair, hp, ih]

theorem lookupPair_addSimpleEdge (acc : List ((Nat × Nat) × ℚ))
    (a b u v : Nat) (c : ℚ) :
    lookupPair (addSimpleEdge acc a b c) u v =
      if pairMatches (a, b) u v then optMinQ (lookupPair acc u v) (some c)
      else lookupPair acc u v := by
  unfold addSimpleEdge
  by_cases hm : pairMatches (a, b) u v = true
  · rw [if_pos hm]
    have hcong := lookupPair_congr hm acc
    cases hacc : lookupPair acc u v with
    | none =>
      rw [hcong, hacc]
      dsimp only
      rw [lookupPair_append acc, hacc, if_pos hm]
      rfl
    | some cap =>
      rw [hcong, hacc]
      dsimp only
      by_cases hlt : c < cap
      · rw [if_pos hlt, lookupPair_setPair_matches hm acc, hacc]
        show some c = some (min cap c)
        rw [min_eq_right (le_of_lt hlt)]
      · rw [if_neg hlt, hacc]
        show some cap = some (min cap c)
        rw [min_eq_left (le_of_not_lt hlt)]
  · have hmf := bool_eq_false_of_not hm
    rw [if_neg hm]
    cases hab : lookupPair acc a b with
    | none =>
      dsimp only
      rw [lookupPair_append acc]
      cases hacc : lookupPair acc u v with
      | none => simp [hmf]
      | some cp => simp
    | some cap =>
      dsimp only
      by_cases hlt : c < cap
      · rw [if_pos hlt, lookupPair_setPair_no_match hmf acc]
      · rw [if_neg hlt]

theorem foldl_addSimpleEdge (u v : Nat) :
    ∀ (es : List Edge) (acc : List ((Nat × Nat) × ℚ)),
      lookupPair (es.foldl
        (fun acc e => addSimpleEdge acc e.u e.v (edgeCutCost e.d)) acc) u v =
      optMinQ (lookupPair acc u v)
        (minQList ((es.filter fun e => pairMatches (e.u, e.v) u v).map
          fun e => edgeCutCost e.d)) := by
  intro es
  induction es with
  | nil =>
    intro acc
    show lookupPair acc u v = optMinQ (lookupPair acc u v) (minQList [])
    rw [show minQList [] = none from rfl, optMinQ_none_right]
  | cons e t ih =>
    intro acc
    rw [List.foldl_cons, ih, lookupPair_addSimpleEdge]
    by_cases hm : pairMatches (e.u, e.v) u v = true
    · rw [if_pos hm]
      simp only [List.filter_cons, hm, if_true, List.map_cons, minQList]
      rw [optMinQ_assoc]
    · have hmf := bool_eq_false_of_not hm
      rw [if_neg hm]
      simp only [List.filter_cons, hmf, Bool.false_eq_true, if_false]

/-- The capacity stored in `G_simple` for an unordered pair is the minimum
cut cost over all parallel edges (either direction) of that pair. -/
theorem buildSimpleGraph_lookup (es : List Edge) (u v : Nat) :
    lookupPair (buildSimpleGraph es) u v =
      minQList ((es.filter fun e => pairMatches (e.u, e.v) u v).map
        fun e => edgeCutCost e.d) := by
  unfold buildSimpleGraph
  rw [foldl_addSimpleEdge]
  rfl

/-! ### Claim theorems -/

/-- If violation detection over the sector lists of `g` finds nothing in
the searched graph `G`, then no two distinct graph-present entry nodes of
different sectors are connected in `G`. -/
theorem noConn_of_findViolations_nil {G g : Graph} {entries : List Nat}
    {assign : Nat → Nat} {S a b : Nat} (hGwf : G.WF)
    (hnil : findViolations G (entrySector g entries assign) S = [])
    (hassign : ∀ n, assign n < S)
    (hae : a ∈ entries) (hbe : b ∈ entries) (hag : a ∈ g.nodeIds)
    (hbg : b ∈ g.nodeIds) (hne : assign a ≠ assign b) : ¬ ConnU G a b := by
  rw [findViolations_eq_nil_iff] at hnil
  intro hconn
  have hne' : a ≠ b := fun hab => hne (by rw [hab])
  rcases Nat.lt_or_ge (assign a) (assign b) with hlt | hge
  · have hfalse := hnil (assign a) (assign b) hlt (hassign b) a
      (mem_entrySector.2 ⟨hae, hag, rfl⟩) b
      (mem_entrySector.2 ⟨hbe, hbg, rfl⟩) hne'
    have hp := (hasPathU_iff_connU hGwf a b).2 hconn
    rw [hfalse] at hp
    exact Bool.false_ne_true hp
  · have hlt2 : assign b < assign a :=
      Nat.lt_of_le_of_ne hge (fun hh => hne hh.symm)
    have hfalse := hnil (assign b) (assign a) hlt2 (hassign a) b
      (mem_entrySector.2 ⟨hbe, hbg, rfl⟩) a
      (mem_entrySector.2 ⟨hae, hag, rfl⟩) hne'.symm
    have hp := (hasPathU_iff_connU hGwf b a).2 hconn.symm
    rw [hfalse] at hp
    exact Bool.false_ne_true hp

/-- Trivial min-cut oracle for concrete instantiations. -/
def trivialCutOracle : CutOracle := fun _ _ _ => []

/-- Two isolated nodes (concrete instantiations). -/
def twoNodeGraph : Graph :=
  { nodes := [(1, ⟨0, 0, true⟩), (2, ⟨1, 1, true⟩)], edges := [] }

/-- Claim C1: for every superblock with `constraint_validated = true`, no
undirected path joins two entry nodes of different sectors in the interior
subgraph after its modifications are applied, on every emitting code path.
(a) Enforcer path: when `enforce_constraints` returns an empty remaining
violation list (the partitioner's `constraint_validated = len(violations)
== 0`), no cross-sector undirected path survives in the
modification-applied graph.  (b) Fallback path: the "simple" superblock is
validated with an empty modification list and all entry points in sector
0, so no two of its entry points have different sectors and the invariant
is vacuous. -/
theorem C1_constraint_validated_sound :
    (∀ (cut : CutOracle) (g : Graph) (entryNodes : List Nat)
        (assign : Nat → Nat) (S : Nat) (mods : List StreetModification)
        (rems : List ViolationE), g.WF → (∀ n, assign n < S) →
        enforceConstraints cut g entryNodes assign S = (mods, rems) →
        rems = [] →
        ∀ a b, a ∈ entryNodes → b ∈ entryNodes → a ∈ g.nodeIds →
          b ∈ g.nodeIds → assign a ≠ assign b →
          ¬ ConnU (applyValidateMods g mods) a b) ∧
    (∀ entryNodes : List Nat,
        (createSimpleSuperblock entryNodes).constraintValidated = true ∧
        (createSimpleSuperblock entryNodes).modifications = [] ∧
        ∀ p ∈ (createSimpleSuperblock entryNodes).entryPoints,
          ∀ q ∈ (createSimpleSuperblock entryNodes).entryPoints,
            p.sector = q.sector) := by
  constructor
  · intro cut g entries assign S mods rems hwf hassign henf hrems a b hae hbe
      hag hbg hne
    subst hrems
    unfold enforceConstraints at henf
    by_cases hlen : entries.dedup.length < 2
    · exfalso
      have hne' : a ≠ b := fun hab => hne (by rw [hab])
      have h2 := two_mem_dedup_length hae hbe hne'
      omega
    · simp only [if_neg hlen] at henf
      by_cases hviol :
          (findViolations g (entrySector g entries assign) S).isEmpty = true
      · simp only [hviol, if_true] at henf
        injection henf with hm _
        subst hm
        have hnil : findViolations g (entrySector g entries assign) S = [] :=
          List.isEmpty_iff.1 hviol
        exact noConn_of_findViolations_nil hwf hnil hassign hae hbe hag hbg hne
      · rw [if_neg hviol] at henf
        injection henf with hm hr
        subst hm
        unfold validateModifications at hr
        have hGwf := applyValidateMods_WF hwf
          (generateModifications g
            (computeModificationPlan cut g (entrySector g entries assign) S
              (findViolations g (entrySector g entries assign) S)))
        exact noConn_of_findViolations_nil hGwf hr hassign hae hbe hag hbg hne
  · intro entries
    refine ⟨rfl, rfl, ?_⟩
    intro p hp q hq
    simp only [createSimpleSuperblock, List.mem_map] at hp hq
    obtain ⟨n, -, rfl⟩ := hp
    obtain ⟨m, -, rfl⟩ := hq
    rfl

theorem C1_constraint_validated_sound_witness :
    (¬ ConnU (applyValidateMods twoNodeGraph []) 1 2) ∧
    (createSimpleSuperblock [5, 9]).constraintValidated = true :=
  ⟨C1_constraint_validated_sound.1 trivialCutOracle twoNodeGraph [1, 2]
      (fun n => n % 2) 4 [] [] (by decide)
      (fun n => by show n % 2 < 4; omega) (by decide)
      rfl 1 2 (by decide) (by decide) (by decide) (by decide) (by decide),
    (C1_constraint_validated_sound.2 [5, 9]).1⟩

/-- Claim C4: `enforce_constraints` returns an empty modification list and
an empty violation list whenever no undirected path joins two entry nodes
of different sectors in the interior graph (in particular whenever fewer
than two distinct entry nodes exist, via the early return). -/
theorem C4_enforce_no_cross_paths (cut : CutOracle) (g : Graph)
    (entryNodes : List Nat) (assign : Nat → Nat) (S : Nat) (hwf : g.WF)
    (hnopath : ∀ a b, a ∈ entryNodes → b ∈ entryNodes → a ∈ g.nodeIds →
      b ∈ g.nodeIds → assign a ≠ assign b → ¬ ConnU g a b) :
    enforceConstraints cut g entryNodes assign S = ([], []) := by
  unfold enforceConstraints
  by_cases hlen : entryNodes.dedup.length < 2
  · simp only [if_pos hlen]
  · have hnil : findViolations g (entrySector g entryNodes assign) S = [] := by
      rw [findViolations_eq_nil_iff]
      intro sa sb hab hbS a ha b hb hne
      obtain ⟨hae, hag, has⟩ := mem_entrySector.1 ha
      obtain ⟨hbe, hbg, hbs⟩ := mem_entrySector.1 hb
      have hdiff : assign a ≠ assign b := by
        rw [has, hbs]
        omega
      have hnc := hnopath a b hae hbe hag hbg hdiff
      cases hp : hasPathU g a b
      · rfl
      · exact absurd ((hasPathU_iff_connU hwf a b).1 hp) hnc
    simp only [if_neg hlen, hnil, List.isEmpty_nil, if_true]

theorem C4_enforce_no_cross_paths_witness :
    enforceConstraints trivialCutOracle twoNodeGraph [1, 2]
      (fun n => n % 2) 4 = ([], []) :=
  C4_enforce_no_cross_paths trivialCutOracle twoNodeGraph [1, 2]
    (fun n => n % 2) 4 (by decide)
    (fun a b _ _ _ _ _ hconn => by
      cases hconn with
      | refl => omega
      | tail _ hadj => simp [adjU, twoNodeGraph] at hadj)

/-- Claim C2: the router never traverses a blocked edge.  Every path the
A* search returns steps only along edges whose `vehicle_blocked` attribute
is false in the graph it searches — in particular in the
modification-applied graph `_build_modified_graph` produces, which is the
graph `_astar` runs on. -/
theorem C2_astar_never_blocked (g : Graph) (arterials : List Int)
    (allowInterior : Bool) (restrict : Option String) (h : Nat → ℚ)
    (start goal fuel : Nat) (path : List Nat)
    (hp : astar g arterials allowInterior restrict h start goal fuel =
      some path) :
    List.Chain' (fun a b => ∃ e ∈ g.edges,
      e.u = a ∧ e.v = b ∧ e.d.vehicleBlocked = false) path :=
  astar_chain hp

/-- Three nodes with a direct edge `1→2` and a detour `1→3→2` (concrete
router instantiations). -/
def threeNodeGraph : Graph :=
  { nodes := [(1, ⟨0, 0, true⟩), (2, ⟨1, 0, true⟩), (3, ⟨0, 1, true⟩)],
    edges := [⟨1, 2, 0, ⟨"residential", 5, false, 10, none⟩⟩,
              ⟨1, 3, 0, ⟨"residential", 5, false, 11, none⟩⟩,
              ⟨3, 2, 0, ⟨"residential", 5, false, 12, none⟩⟩] }

/-- The three-node graph with a modal filter on `(1, 2)` applied by the
router's modification pass: the direct edge is vehicle-blocked. -/
def filteredThreeNodeGraph : Graph :=
  buildModifiedGraph threeNodeGraph
    [("sb1", [{ u := 1, v := 2, key := 0,
                modType := .modalFilter, direction := none }])]

theorem C2_astar_never_blocked_witness :
    astar filteredThreeNodeGraph [] true none (fun _ => 0) 1 2 10 =
      some [1, 3, 2] ∧
    List.Chain' (fun a b => ∃ e ∈ filteredThreeNodeGraph.edges,
      e.u = a ∧ e.v = b ∧ e.d.vehicleBlocked = false) [1, 3, 2] :=
  ⟨by decide,
   C2_astar_never_blocked filteredThreeNodeGraph [] true none (fun _ => 0)
     1 2 10 [1, 3, 2] (by decide)⟩

/-- Claim C3: applying a superblock modification list twice yields the
same graph (same edge set and the same `vehicle_blocked` markings) as
applying it once — for the router's `_build_modified_graph` pass over any
superblock list, and for the enforcer's `get_modified_graph` over any
modification list. -/
theorem C3_modifications_idempotent :
    (∀ (g : Graph) (sbs : List (String × List StreetModification)),
      buildModifiedGraph (buildModifiedGraph g sbs) sbs =
        buildModifiedGraph g sbs) ∧
    (∀ (g : Graph) (mods : List StreetModification),
      getModifiedGraph (getModifiedGraph g mods) mods =
        getModifiedGraph g mods) :=
  ⟨buildModifiedGraph_idem, getModifiedGraph_idem⟩

/-- Claim C9: when both endpoints snap to the same nearest node, `route`
returns the fixed successful result (empty segments, zero distance and
time, 100% arterial share, no traversed superblocks) for every
continuation `strategy` — i.e. before the superblock containment lookups
and regardless of `respect_superblocks`, both of which live inside
`strategy`. -/
theorem C9_route_same_snap (g : Graph) (strategy : Nat → Nat → RouteResultE)
    (origin destination : Coords) (n : Nat)
    (ho : findNearestNode g origin = some n)
    (hd : findNearestNode g destination = some n) :
    route g strategy origin destination =
      { success := true, segments := [], totalDistanceKm := 0,
        estimatedTimeMin := 0, arterialPercent := 100,
        superblocksTraversed := [], blockedReason := none,
        alternativeAvailable := false } := by
  unfold route
  rw [ho, hd]
  simp

theorem C9_route_same_snap_witness :
    route twoNodeGraph
      (fun _ _ => { success := false, segments := [], totalDistanceKm := 0,
                    estimatedTimeMin := 0, arterialPercent := 0,
                    superblocksTraversed := [], blockedReason := none,
                    alternativeAvailable := false })
      { lat := 0, lon := 0 } { lat := 0, lon := 1 / 4 } =
      { success := true, segments := [], totalDistanceKm := 0,
        estimatedTimeMin := 0, arterialPercent := 100,
        superblocksTraversed := [], blockedReason := none,
        alternativeAvailable := false } :=
  C9_route_same_snap twoNodeGraph _ _ _ 1
    (by norm_num [findNearestNode, twoNodeGraph])
    (by norm_num [findNearestNode, twoNodeGraph])

/-- Claim C10: `enforce_constraints` does not mutate the caller's interior
graph.  In this state-threaded embedding of the enforcer's `self.graph`
field, the graph held after the call equals the copy stored at
construction (post-validation applies modifications only to a scratch
copy and restores `self.graph`), and the tracked run returns the same
result as the pure one. -/
theorem C10_enforcer_preserves_graph (cut : CutOracle) (g0 : Graph)
    (entryNodes : List Nat) (assign : Nat → Nat) (S : Nat) :
    (enforceConstraintsTracked cut g0 entryNodes assign S).2 = g0 ∧
    (enforceConstraintsTracked cut g0 entryNodes assign S).1 =
      enforceConstraints cut g0 entryNodes assign S := by
  unfold enforceConstraintsTracked enforceConstraints
  by_cases hlen : entryNodes.dedup.length < 2
  · simp only [if_pos hlen]
    exact ⟨trivial, trivial⟩
  · simp only [if_neg hlen]
    by_cases hviol :
        (findViolations g0 (entrySector g0 entryNodes assign) S).isEmpty = true
    · simp only [hviol, if_true]
      exact ⟨trivial, trivial⟩
    · simp only [if_neg hviol]
      exact ⟨trivial, rfl⟩

/-- Claim C5 (amended): the capacity of each unordered node pair in
`G_simple` is the minimum of `_edge_cut_cost` over all parallel multigraph
edges of that pair, and an edge whose highway class is not in
`HIERARCHY_MAP` gets hierarchy 6 and hence cut cost `10 - 6 + 1 = 5`
(not 6). -/
theorem C5_capacity_min_and_default :
    (∀ (es : List Edge) (u v : Nat),
      lookupPair (buildSimpleGraph es) u v =
        minQList ((es.filter fun e => pairMatches (e.u, e.v) u v).map
          fun e => edgeCutCost e.d)) ∧
    (∀ d : EdgeData, hierarchyMap d.highway = none → edgeCutCost d = 5) := by
  constructor
  · exact buildSimpleGraph_lookup
  · intro d hd
    unfold edgeCutCost
    rw [hd]
    norm_num

/-- Claim C5 counterexample: an unknown highway class (`pedestrian`) gets
cut cost 5, not 6 as the claim states. -/
theorem C5_unknown_class_counterexample :
    edgeCutCost ⟨"pedestrian", 7, false, 0, none⟩ = 5 ∧ (5 : ℚ) ≠ 6 := by
  constructor
  · have h : hierarchyMap "pedestrian" = none := by decide
    unfold edgeCutCost
    rw [show (⟨"pedestrian", 7, false, 0, none⟩ : EdgeData).highway =
      "pedestrian" from rfl, h]
    norm_num
  · norm_num

theorem C5_capacity_min_and_default_witness :
    hierarchyMap "busway" = none ∧
    edgeCutCost ⟨"busway", 7, false, 0, none⟩ = 5 :=
  ⟨by decide,
   C5_capacity_min_and_default.2 ⟨"busway", 7, false, 0, none⟩ (by decide)⟩

/-- Claim C6 (amended): the A* edge cost is `length · f` where `f = 1.0`
exactly for the classes `{primary, secondary, tertiary}` (the `_link`
variants are NOT in this set), `f = 1.5` for every other class when
interior edges are allowed, and `f = 10.0` when they are disallowed. -/
theorem C6_astar_cost_factor :
    ∀ (d : EdgeData) (allowInterior : Bool),
      (costArterialClasses.contains d.highway = true →
        astarEdgeCost d allowInterior = d.length * 1) ∧
      (costArterialClasses.contains d.highway = false → allowInterior = true →
        astarEdgeCost d allowInterior = d.length * (3 / 2)) ∧
      (costArterialClasses.contains d.highway = false → allowInterior = false →
        astarEdgeCost d allowInterior = d.length * 10) := by
  intro d ai
  refine ⟨?_, ?_, ?_⟩
  · intro hc
    unfold astarEdgeCost
    rw [hc]
    simp
  · intro hc hai
    subst hai
    unfold astarEdgeCost
    rw [hc]
    simp
  · intro hc hai
    subst hai
    unfold astarEdgeCost
    rw [hc]
    simp

/-- Claim C6 counterexample: a `primary_link` edge of length 100 costs
`150` (factor 1.5) in the code, while the claim's factor rule (1.0 for all
arterial classes including `_link` variants) would give `100`. -/
theorem C6_link_factor_counterexample :
    astarEdgeCost ⟨"primary_link", 100, false, 0, none⟩ true = 150 ∧
    astarEdgeCostClaim ⟨"primary_link", 100, false, 0, none⟩ true = 100 ∧
    (150 : ℚ) ≠ 100 := by
  refine ⟨?_, ?_, by norm_num⟩
  · have hc : costArterialClasses.contains "primary_link" = false := by decide
    unfold astarEdgeCost
    rw [show (⟨"primary_link", 100, false, 0, none⟩ : EdgeData).highway =
      "primary_link" from rfl, hc]
    norm_num
  · have hc : filterArterialClasses.contains "primary_link" = true := by decide
    unfold astarEdgeCostClaim
    rw [show (⟨"primary_link", 100, false, 0, none⟩ : EdgeData).highway =
      "primary_link" from rfl, hc]
    norm_num

theorem C6_astar_cost_factor_witness :
    astarEdgeCost ⟨"primary", 2, false, 0, none⟩ true = 2 * 1 ∧
    astarEdgeCost ⟨"residential", 2, false, 0, none⟩ true = 2 * (3 / 2) ∧
    astarEdgeCost ⟨"residential", 2, false, 0, none⟩ false = 2 * 10 :=
  ⟨(C6_astar_cost_factor ⟨"primary", 2, false, 0, none⟩ true).1 (by decide),
   (C6_astar_cost_factor ⟨"residential", 2, false, 0, none⟩ true).2.1
      (by decide) rfl,
   (C6_astar_cost_factor ⟨"residential", 2, false, 0, none⟩ false).2.2
      (by decide) rfl⟩

/-- Claim C7 (amended): the area function projects into UTM zone
`floor((cx+180)/6)+1` (the code's `int()` truncation agrees with `floor`
for `cx ≥ -180`), picks the hemisphere by the sign of the centroid
latitude, and returns projected area / 10000; when the projection fails it
returns the bounding-rectangle area with BOTH extents scaled at
111000 m/deg (no `cos(lat)` factor on the east-west extent), divided
by 10000. -/
theorem C7_area_hectares :
    (∀ cx : ℚ, -180 ≤ cx → utmZone cx = ⌊(cx + 180) / 6⌋ + 1) ∧
    (∀ cy : ℚ, 0 ≤ cy → hemisphereOf cy = HemisphereE.north) ∧
    (∀ cy : ℚ, cy < 0 → hemisphereOf cy = HemisphereE.south) ∧
    (∀ (proj : ℤ → HemisphereE → PolyE → Option ℚ) (p : PolyE) (a : ℚ),
      proj (utmZone p.cx) (hemisphereOf p.cy) p = some a →
      calculateAreaHectares proj p = a / 10000) ∧
    (∀ (proj : ℤ → HemisphereE → PolyE → Option ℚ) (p : PolyE),
      proj (utmZone p.cx) (hemisphereOf p.cy) p = none →
      calculateAreaHectares proj p =
        (|p.east - p.west| * 111000 * (|p.north - p.south| * 111000)) /
          10000) := by
  refine ⟨?_, ?_, ?_, ?_, ?_⟩
  · intro cx hcx
    unfold utmZone pyInt
    rw [if_pos (div_nonneg (by linarith) (by norm_num))]
  · intro cy h
    unfold hemisphereOf
    rw [if_pos h]
  · intro cy h
    unfold hemisphereOf
    rw [if_neg (not_le.2 h)]
  · intro proj p a hp
    unfold calculateAreaHectares
    rw [hp]
  · intro proj p hp
    unfold calculateAreaHectares
    rw [hp]

/-- Claim C7 counterexample: on the 1°×1° box between latitudes 60° and
61° the code's fallback returns 1232100 ha, while the claim's formula
(east-west extent scaled by `111000·cos(lat)`) gives strictly less, since
`cos(60.5°) ≤ 1/2`. -/
theorem C7_fallback_cos_counterexample :
    calculateAreaHectares (fun _ _ _ => none)
      ⟨1 / 2, 121 / 2, 0, 60, 1, 61⟩ = 1232100 ∧
    111000 * Real.cos (121 / 2 * Real.pi / 180) * 111000 / 10000 <
      ((1232100 : ℚ) : ℝ) := by
  constructor
  · norm_num [calculateAreaHectares]
  · have hcos : Real.cos (121 / 2 * Real.pi / 180) ≤ 1 / 2 := by
      have h0 : (0 : ℝ) ≤ Real.pi / 3 := by positivity
      have hle : Real.pi / 3 ≤ 121 / 2 * Real.pi / 180 := by
        nlinarith [Real.pi_pos]
      have hle2 : 121 / 2 * Real.pi / 180 ≤ Real.pi := by
        nlinarith [Real.pi_pos]
      calc Real.cos (121 / 2 * Real.pi / 180) ≤ Real.cos (Real.pi / 3) :=
            Real.cos_le_cos_of_nonneg_of_le_pi h0 hle2 hle
        _ = 1 / 2 := Real.cos_pi_div_three
    push_cast
    nlinarith [hcos]

theorem C7_area_hectares_witness :
    utmZone 0 = ⌊((0 : ℚ) + 180) / 6⌋ + 1 ∧
    hemisphereOf (1 : ℚ) = HemisphereE.north ∧
    hemisphereOf (-1 : ℚ) = HemisphereE.south ∧
    calculateAreaHectares (fun _ _ _ => some 50000) ⟨0, 0, 0, 0, 1, 1⟩ =
      50000 / 10000 ∧
    calculateAreaHectares (fun _ _ _ => none) ⟨0, 0, 0, 0, 1, 1⟩ =
      (|(1 : ℚ) - 0| * 111000 * (|(1 : ℚ) - 0| * 111000)) / 10000 :=
  ⟨C7_area_hectares.1 0 (by norm_num),
   C7_area_hectares.2.1 1 (by norm_num),
   C7_area_hectares.2.2.1 (-1) (by norm_num),
   C7_area_hectares.2.2.2.1 (fun _ _ _ => some 50000) ⟨0, 0, 0, 0, 1, 1⟩
     50000 rfl,
   C7_area_hectares.2.2.2.2 (fun _ _ _ => none) ⟨0, 0, 0, 0, 1, 1⟩ rfl⟩

/-- Claim C8 (amended): the analyzer's centrality samples sources iff the
undirected simplified graph has at least 2500 nodes, with
`k = min(min(800, max(200, floor(0.10·N))), N)` (the code truncates
`0.10·N`; the claim's ceiling is wrong) and seed 42; the partitioner's own
centrality instead samples (`k = min(500, N)`) iff `N > 1000` and is
computed at all only when `N > 100`, also with seed 42. -/
theorem C8_centrality_sampling :
    (∀ n : Nat, 2500 ≤ n →
      analyzerCentralityCall n =
        { k := some (min (min 800 (max 200 (n / 10))) n), seed := 42,
          weight := "length" }) ∧
    (∀ n : Nat, n < 2500 →
      analyzerCentralityCall n =
        { k := none, seed := 42, weight := "length" }) ∧
    (∀ n : Nat, 1000 < n →
      partitionerCentralityCall n =
        some { k := some (min 500 n), seed := 42, weight := "weight" }) ∧
    (∀ n : Nat, 100 < n → n ≤ 1000 →
      partitionerCentralityCall n =
        some { k := none, seed := 42, weight := "weight" }) ∧
    (∀ n : Nat, n ≤ 100 → partitionerCentralityCall n = none) := by
  refine ⟨?_, ?_, ?_, ?_, ?_⟩
  · intro n h
    simp [analyzerCentralityCall, analyzerApproxK, h]
  · intro n h
    simp [analyzerCentralityCall, analyzerApproxK, Nat.not_le.2 h]
  · intro n h
    have h100 : 100 < n := by omega
    simp [partitionerCentralityCall, partitionerApproxK, h, h100]
  · intro n h100 h1000
    have hn : ¬ 1000 < n := by omega
    simp [partitionerCentralityCall, partitionerApproxK, h100, hn]
  · intro n h
    have hn : ¬ 100 < n := by omega
    simp [partitionerCentralityCall, hn]

/-- Claim C8 counterexample: the partitioner samples with `k = 500` at
1500 nodes (below the claimed 2500 threshold), and at 2501 nodes the
analyzer's truncation gives `k = 250` while the claim's ceiling formula
gives 251. -/
theorem C8_sampling_counterexample :
    partitionerApproxK 1500 = some 500 ∧
    analyzerApproxK 2501 = some 250 ∧
    claimApproxK 2501 = some 251 := by
  refine ⟨?_, ?_, ?_⟩ <;> decide

theorem C8_centrality_sampling_witness :
    analyzerCentralityCall 3000 =
      { k := some (min (min 800 (max 200 (3000 / 10))) 3000), seed := 42,
        weight := "length" } ∧
    analyzerCentralityCall 100 =
      { k := none, seed := 42, weight := "length" } ∧
    partitionerCentralityCall 2000 =
      some { k := some (min 500 2000), seed := 42, weight := "weight" } ∧
    partitionerCentralityCall 500 =
      some { k := none, seed := 42, weight := "weight" } ∧
    partitionerCentralityCall 50 = none :=
  ⟨C8_centrality_sampling.1 3000 (by omega),
   C8_centrality_sampling.2.1 100 (by omega),
   C8_centrality_sampling.2.2.1 2000 (by omega),
   C8_centrality_sampling.2.2.2.1 500 (by omega) (by omega),
   C8_centrality_sampling.2.2.2.2 50 (by omega)⟩
